import Mathlib

/-!
Verification of the CrewAI Command Center backend against its specification.

The definitions below are a shallow embedding of the Python sources:
  * `backend/activity_store.py`  (ActivityStore: durable ring buffer)
  * `backend/crew_broadcast.py`  (LogDeduplicator, OperationTracker,
    categorize_log, CrewLogBroadcaster.stream_process_logs per-line step)
  * `backend/crew_runtime.py`    (CrewRuntime.start_crew, CrewRuntime.stop_crew)
  * `backend/crew_storage.py`    (normalize_crew_identifier)
  * `backend/main.py`            (_calculate_percentile)

Machine time (`datetime.now(timezone.utc)` / `datetime.utcnow()`) is modelled
as an integer number of seconds supplied explicitly to each operation; ISO
timestamp strings stored on events are modelled by that integer.  Payloads are
modelled in two ways: as opaque values for the buffer/ordering claims, and as
addresses into an explicit object heap for the deep-copy isolation claim.
-/

namespace CrewAI

/-- Association-list lookup, modelling Python dict key lookup. -/
def alookup {α β : Type} [DecidableEq α] : List (α × β) → α → Option β
  | [], _ => none
  | (k, v) :: rest, key => if k = key then some v else alookup rest key

/-- Association-list update, modelling Python dict item assignment:
an existing key is overwritten in place, a new key is appended. -/
def aset {α β : Type} [DecidableEq α] : List (α × β) → α → β → List (α × β)
  | [], key, v => [(key, v)]
  | (k, w) :: rest, key, v =>
    if k = key then (key, v) :: rest else (k, w) :: aset rest key v

theorem alookup_aset_self {α β : Type} [DecidableEq α]
    (l : List (α × β)) (k : α) (v : β) :
    alookup (aset l k v) k = some v := by
  induction l with
  | nil => simp [aset, alookup]
  | cons p rest ih =>
    obtain ⟨k0, w⟩ := p
    by_cases h : k0 = k
    · simp [aset, h, alookup]
    · simp [aset, h, alookup, ih]

theorem alookup_aset_ne {α β : Type} [DecidableEq α]
    (l : List (α × β)) (k k2 : α) (v : β)
    (h : k ≠ k2) : alookup (aset l k v) k2 = alookup l k2 := by
  induction l with
  | nil => simp [aset, alookup, h]
  | cons p rest ih =>
    obtain ⟨k0, w⟩ := p
    by_cases h0 : k0 = k
    · subst h0
      simp [aset, alookup, h]
    · simp [aset, h0, alookup, ih]

instance {α β : Type} [DecidableEq α] [DecidableEq β] : DecidableEq (Except α β)
  | .ok a, .ok b =>
    if h : a = b then .isTrue (by rw [h])
    else .isFalse (fun hc => h (Except.ok.inj hc))
  | .ok _, .error _ => .isFalse (fun hc => Except.noConfusion hc)
  | .error _, .ok _ => .isFalse (fun hc => Except.noConfusion hc)
  | .error a, .error b =>
    if h : a = b then .isTrue (by rw [h])
    else .isFalse (fun hc => h (Except.error.inj hc))

/-! ## ActivityStore (`backend/activity_store.py`)

An event's `timestamp` is the integer time at which `add_event` stamped it
(the Python code stores `datetime.now(timezone.utc).isoformat()`; parsing the
stored string back, as `_parse_timestamp` does during pruning, recovers the
same instant, so the embedding keeps the integer directly).  The `data`
payload is opaque (`String`) here; `deepcopy` on a JSON-serialisable value is
value-faithful, and aliasing is treated separately in the heap model below. -/

/-- One stored activity event (`entry` dict built in `ActivityStore.add_event`). -/
structure AEvent where
  id : Nat
  type : String
  timestamp : Int
  data : String
  deriving Repr, DecidableEq

/-- `ActivityStore._TRACKED_EVENTS`. -/
def TRACKED_EVENTS : List String :=
  ["crew_log", "crew_started", "crew_start_ack", "crew_stopped", "crew_error",
   "stop_requested"]

/-- The mutable state of an `ActivityStore` plus its (immutable) configuration.
`maxEvents = none` / `retention = none` model the constructor turning a
non-positive `max_events` / `retention_seconds` into `None`. -/
structure ActivityStore where
  maxEvents : Option Nat
  retention : Option Int
  events : List AEvent
  nextId : Nat
  deriving Repr, DecidableEq

/-- `ActivityStore._enforce_max_events_locked`: when over capacity, delete the
oldest excess from the front (`del self._events[: len - max]`). -/
def enforceMaxEventsLocked (s : ActivityStore) : ActivityStore :=
  match s.maxEvents with
  | none => s
  | some m =>
    if s.events.length > m then
      { s with events := s.events.drop (s.events.length - m) }
    else s

/-- `ActivityStore._prune_locked`: pop events from the front while the oldest
one's timestamp is strictly older than `now - retention`; if anything was
removed, re-apply the capacity bound.  Returns the `removed` flag. -/
def pruneLocked (s : ActivityStore) (now : Int) : ActivityStore × Bool :=
  match s.retention with
  | none => (s, false)
  | some r =>
    if (s.events.dropWhile (fun e => e.timestamp < now - r)).length = s.events.length
    then
      ({ s with events := s.events.dropWhile (fun e => e.timestamp < now - r) }, false)
    else
      (enforceMaxEventsLocked
        { s with events := s.events.dropWhile (fun e => e.timestamp < now - r) }, true)

/-- `ActivityStore.add_event` (persistence to disk is a pure no-op here;
`_persist_locked` swallows all I/O errors and does not change state). -/
def addEvent (s : ActivityStore) (etype : String) (payload : String) (now : Int) :
    ActivityStore × Option AEvent :=
  if etype ∈ TRACKED_EVENTS then
    (enforceMaxEventsLocked
      { (pruneLocked s now).1 with
        nextId := (pruneLocked s now).1.nextId + 1,
        events := (pruneLocked s now).1.events ++
          [⟨(pruneLocked s now).1.nextId, etype, now, payload⟩] },
     some ⟨(pruneLocked s now).1.nextId, etype, now, payload⟩)
  else (s, none)

/-- `ActivityStore.get_events`: prune, then return a copy of the buffer. -/
def getEvents (s : ActivityStore) (now : Int) : ActivityStore × List AEvent :=
  ((pruneLocked s now).1, (pruneLocked s now).1.events)

/-- `ActivityStore.prune`. -/
def pruneStore (s : ActivityStore) (now : Int) : ActivityStore :=
  (pruneLocked s now).1

/-- The JSON document written by `ActivityStore._persist_locked`. -/
structure PersistedPayload where
  nextId : Nat
  events : List AEvent
  deriving Repr, DecidableEq

/-- `ActivityStore._persist_locked` (the document it writes). -/
def persistPayload (s : ActivityStore) : PersistedPayload :=
  ⟨s.nextId, s.events⟩

/-- Python `max((event.get("id", 0) for event in events), default=0)`. -/
def maxIdList (l : List AEvent) : Nat :=
  l.foldl (fun acc e => max acc e.id) 0

/-- `ActivityStore._load_persisted_events` on a `{next_id, events}` document
(the shape `_persist_locked` writes).  In this typed embedding every event has
the `type` / `timestamp` / `data` keys, so `_is_valid_event` keeps all of
them.  After installing the events it prunes, re-applies the capacity bound,
and takes the stored counter when it is a positive integer, otherwise
`max(ids) + 1` over the (already pruned and trimmed) buffer. -/
def loadFromPayload (maxE : Option Nat) (ret : Option Int)
    (p : PersistedPayload) (now : Int) : ActivityStore :=
  if p.nextId > 0 then
    { enforceMaxEventsLocked (pruneLocked ⟨maxE, ret, p.events, 1⟩ now).1 with
      nextId := p.nextId }
  else
    { enforceMaxEventsLocked (pruneLocked ⟨maxE, ret, p.events, 1⟩ now).1 with
      nextId :=
        maxIdList
          (enforceMaxEventsLocked (pruneLocked ⟨maxE, ret, p.events, 1⟩ now).1).events
          + 1 }

/-- The mutating entry points of `ActivityStore` that a client can invoke:
`add_event`, `prune`, and `load_persisted_events` (which re-reads the store's
own persisted file, i.e. the document produced by the latest mutation). -/
inductive AOp
  | add (etype : String) (payload : String)
  | doPrune
  | reload
  deriving Repr, DecidableEq

/-- Apply one mutating call at machine time `now`. -/
def applyOp (s : ActivityStore) (now : Int) : AOp → ActivityStore
  | .add etype payload => (addEvent s etype payload now).1
  | .doPrune => pruneStore s now
  | .reload => loadFromPayload s.maxEvents s.retention (persistPayload s) now

/-- A freshly constructed store (before `load_persisted_events`, or with no
persisted file present). -/
def initStore (maxE : Option Nat) (ret : Option Int) : ActivityStore :=
  ⟨maxE, ret, [], 1⟩

/-- Run a sequence of timestamped mutating calls. -/
def runTrace (maxE : Option Nat) (ret : Option Int)
    (ops : List (Int × AOp)) : ActivityStore :=
  ops.foldl (fun s p => applyOp s p.1 p.2) (initStore maxE ret)

/-- Does a mutating call use a tracked event type?  (`add_event` with an
untracked type returns `None` before touching any state, so it is not a
mutating call.) -/
def opTracked : AOp → Prop
  | .add etype _ => etype ∈ TRACKED_EVENTS
  | .doPrune => True
  | .reload => True

/-! ### Basic facts about `enforceMaxEventsLocked` and `pruneLocked` -/

theorem enforceMax_maxEvents (s : ActivityStore) :
    (enforceMaxEventsLocked s).maxEvents = s.maxEvents := by
  cases hm : s.maxEvents with
  | none => simp [enforceMaxEventsLocked, hm]
  | some m =>
    simp only [enforceMaxEventsLocked, hm]
    split <;> simp [hm]

theorem enforceMax_retention (s : ActivityStore) :
    (enforceMaxEventsLocked s).retention = s.retention := by
  cases hm : s.maxEvents with
  | none => simp [enforceMaxEventsLocked, hm]
  | some m =>
    simp only [enforceMaxEventsLocked, hm]
    split <;> rfl

theorem enforceMax_nextId (s : ActivityStore) :
    (enforceMaxEventsLocked s).nextId = s.nextId := by
  cases hm : s.maxEvents with
  | none => simp [enforceMaxEventsLocked, hm]
  | some m =>
    simp only [enforceMaxEventsLocked, hm]
    split <;> rfl

theorem enforceMax_sublist (s : ActivityStore) :
    (enforceMaxEventsLocked s).events.Sublist s.events := by
  cases hm : s.maxEvents with
  | none => simp [enforceMaxEventsLocked, hm]
  | some m =>
    simp only [enforceMaxEventsLocked, hm]
    split
    · exact List.drop_sublist _ _
    · exact List.Sublist.refl _

theorem enforceMax_length (s : ActivityStore) (m : Nat) (hm : s.maxEvents = some m) :
    (enforceMaxEventsLocked s).events.length ≤ m := by
  simp only [enforceMaxEventsLocked, hm]
  split
  · next hlen => simp only [List.length_drop]; omega
  · next hlen => omega

theorem pruneLocked_maxEvents (s : ActivityStore) (now : Int) :
    (pruneLocked s now).1.maxEvents = s.maxEvents := by
  cases hr : s.retention with
  | none => simp [pruneLocked, hr]
  | some r =>
    simp only [pruneLocked, hr]
    split <;> simp [enforceMax_maxEvents]

theorem pruneLocked_retention (s : ActivityStore) (now : Int) :
    (pruneLocked s now).1.retention = s.retention := by
  cases hr : s.retention with
  | none => simp [pruneLocked, hr]
  | some r =>
    simp only [pruneLocked, hr]
    split <;> simp [enforceMax_retention, hr]

theorem pruneLocked_nextId (s : ActivityStore) (now : Int) :
    (pruneLocked s now).1.nextId = s.nextId := by
  cases hr : s.retention with
  | none => simp [pruneLocked, hr]
  | some r =>
    simp only [pruneLocked, hr]
    split <;> simp [enforceMax_nextId]

theorem pruneLocked_sublist (s : ActivityStore) (now : Int) :
    (pruneLocked s now).1.events.Sublist s.events := by
  cases hr : s.retention with
  | none => simp [pruneLocked, hr]
  | some r =>
    simp only [pruneLocked, hr]
    split
    · exact List.dropWhile_sublist _
    · exact List.Sublist.trans (enforceMax_sublist _) (List.dropWhile_sublist _)

theorem mem_dropWhile_not_lt (c : Int) :
    ∀ (l : List AEvent), l.Pairwise (fun a b => a.timestamp ≤ b.timestamp) →
      ∀ e ∈ l.dropWhile (fun e => e.timestamp < c), ¬ e.timestamp < c := by
  intro l
  induction l with
  | nil => intro _ e he; simp [List.dropWhile] at he
  | cons a rest ih =>
    intro hp e he
    rw [List.dropWhile_cons] at he
    by_cases ha : a.timestamp < c
    · simp only [ha, decide_eq_true_eq, if_true, if_pos] at he
      exact ih (List.Pairwise.sublist (List.sublist_cons_self a rest) hp) e he
    · simp [ha] at he
      rcases he with rfl | hmem
      · exact ha
      · have := (List.pairwise_cons.mp hp).1 e hmem
        omega

theorem pruneLocked_stale (s : ActivityStore) (now : Int) (r : Int)
    (hr : s.retention = some r)
    (hp : s.events.Pairwise (fun a b => a.timestamp ≤ b.timestamp)) :
    ∀ e ∈ (pruneLocked s now).1.events, ¬ e.timestamp < now - r := by
  simp only [pruneLocked, hr]
  split
  · intro e he
    exact mem_dropWhile_not_lt (now - r) s.events hp e he
  · intro e he
    have he2 := (enforceMax_sublist _).subset he
    exact mem_dropWhile_not_lt (now - r) s.events hp e he2

/-! ### The C1 invariant -/

/-- The store invariant at machine time `now`: configuration sanity (the
constructor only keeps positive bounds), timestamps bounded by the clock and
appearing in insertion order, the capacity bound, and no event older than the
retention cutoff. -/
def StoreInv (now : Int) (s : ActivityStore) : Prop :=
  (∀ r, s.retention = some r → 0 < r) ∧
  (∀ e ∈ s.events, e.timestamp ≤ now) ∧
  s.events.Pairwise (fun a b => a.timestamp ≤ b.timestamp) ∧
  (∀ m, s.maxEvents = some m → s.events.length ≤ m) ∧
  (∀ r, s.retention = some r → ∀ e ∈ s.events, ¬ e.timestamp < now - r)

theorem pruneLocked_inv (s : ActivityStore) (oldNow now : Int)
    (hinv : StoreInv oldNow s) (hle : oldNow ≤ now) :
    StoreInv now (pruneLocked s now).1 := by
  obtain ⟨hcfg, hts, hp, hlen, _⟩ := hinv
  have hsub := pruneLocked_sublist s now
  refine ⟨?_, ?_, ?_, ?_, ?_⟩
  · intro r h2; exact hcfg r ((pruneLocked_retention s now) ▸ h2)
  · intro e he
    have := hts e (hsub.subset he)
    omega
  · exact List.Pairwise.sublist hsub hp
  · intro m h2
    have h3 := hlen m ((pruneLocked_maxEvents s now) ▸ h2)
    have := hsub.length_le
    omega
  · intro r h2 e he
    exact pruneLocked_stale s now r ((pruneLocked_retention s now) ▸ h2) hp e he

theorem applyOp_inv (s : ActivityStore) (oldNow now : Int) (op : AOp)
    (hinv : StoreInv oldNow s) (hle : oldNow ≤ now) (hop : opTracked op) :
    StoreInv now (applyOp s now op) ∧
    (applyOp s now op).maxEvents = s.maxEvents ∧
    (applyOp s now op).retention = s.retention := by
  cases op with
  | doPrune =>
    exact ⟨pruneLocked_inv s oldNow now hinv hle,
      pruneLocked_maxEvents s now, pruneLocked_retention s now⟩
  | add etype payload =>
    have htr : etype ∈ TRACKED_EVENTS := hop
    have h1 := pruneLocked_inv s oldNow now hinv hle
    obtain ⟨hcfg1, hts1, hp1, hlen1, hstale1⟩ := h1
    have hstep : applyOp s now (.add etype payload) =
        enforceMaxEventsLocked
          { (pruneLocked s now).1 with
            nextId := (pruneLocked s now).1.nextId + 1,
            events := (pruneLocked s now).1.events ++
              [⟨(pruneLocked s now).1.nextId, etype, now, payload⟩] } := by
      simp only [applyOp, addEvent, htr, if_pos]
    set s1 := (pruneLocked s now).1 with hs1
    set entry : AEvent := ⟨s1.nextId, etype, now, payload⟩ with hentry
    set s2 : ActivityStore :=
      { s1 with nextId := s1.nextId + 1, events := s1.events ++ [entry] } with hs2
    rw [hstep]
    have hm2 : s2.maxEvents = s.maxEvents := pruneLocked_maxEvents s now
    have hr2 : s2.retention = s.retention := pruneLocked_retention s now
    have hsub2 := enforceMax_sublist s2
    refine ⟨⟨?_, ?_, ?_, ?_, ?_⟩, ?_, ?_⟩
    · intro r h2
      exact hcfg1 r (by rw [← (enforceMax_retention s2)]; exact h2)
    · intro e he
      have he2 := hsub2.subset he
      rcases List.mem_append.mp he2 with h | h
      · exact hts1 e h
      · simp only [List.mem_singleton] at h
        subst h; simp [hentry]
    · refine List.Pairwise.sublist hsub2 ?_
      show (s1.events ++ [entry]).Pairwise (fun a b => a.timestamp ≤ b.timestamp)
      rw [List.pairwise_append]
      refine ⟨hp1, List.pairwise_singleton _ _, ?_⟩
      intro a ha b hb
      simp only [List.mem_singleton] at hb
      subst hb
      simpa [hentry] using hts1 a ha
    · intro m h2
      have h3 : s2.maxEvents = some m := by
        rw [← enforceMax_maxEvents s2]; exact h2
      exact enforceMax_length s2 m h3
    · intro r h2 e he
      have hrr : s2.retention = some r := by
        rw [← (enforceMax_retention s2)]; exact h2
      have hrpos : 0 < r := hcfg1 r hrr
      have he2 := hsub2.subset he
      rcases List.mem_append.mp he2 with h | h
      · exact hstale1 r hrr e h
      · simp only [List.mem_singleton] at h
        subst h
        simp only [hentry]
        omega
    · rw [enforceMax_maxEvents]; exact hm2
    · rw [enforceMax_retention]; exact hr2
  | reload =>
    obtain ⟨hcfg, hts, hp, hlen, _⟩ := hinv
    have hstep : applyOp s now .reload =
        loadFromPayload s.maxEvents s.retention ⟨s.nextId, s.events⟩ now := rfl
    rw [hstep]
    have hbody : ∀ n : Nat,
        StoreInv now
          { enforceMaxEventsLocked
              (pruneLocked ⟨s.maxEvents, s.retention, s.events, 1⟩ now).1 with
            nextId := n } ∧
        ({ enforceMaxEventsLocked
              (pruneLocked ⟨s.maxEvents, s.retention, s.events, 1⟩ now).1 with
            nextId := n } : ActivityStore).maxEvents = s.maxEvents ∧
        ({ enforceMaxEventsLocked
              (pruneLocked ⟨s.maxEvents, s.retention, s.events, 1⟩ now).1 with
            nextId := n } : ActivityStore).retention = s.retention := by
      intro n
      set s0 : ActivityStore := ⟨s.maxEvents, s.retention, s.events, 1⟩ with hs0
      have hm1 : (pruneLocked s0 now).1.maxEvents = s.maxEvents :=
        pruneLocked_maxEvents s0 now
      have hr1 : (pruneLocked s0 now).1.retention = s.retention :=
        pruneLocked_retention s0 now
      have hsub : (enforceMaxEventsLocked (pruneLocked s0 now).1).events.Sublist
          s.events :=
        List.Sublist.trans (enforceMax_sublist _) (pruneLocked_sublist s0 now)
      have hm2 : (enforceMaxEventsLocked (pruneLocked s0 now).1).maxEvents
          = s.maxEvents := by
        rw [enforceMax_maxEvents]; exact hm1
      have hr2 : (enforceMaxEventsLocked (pruneLocked s0 now).1).retention
          = s.retention := by
        rw [enforceMax_retention]; exact hr1
      refine ⟨⟨?_, ?_, ?_, ?_, ?_⟩, hm2, hr2⟩
      · intro r h2
        have h3 : (enforceMaxEventsLocked (pruneLocked s0 now).1).retention
            = some r := h2
        rw [hr2] at h3
        exact hcfg r h3
      · intro e he
        have := hts e (hsub.subset he)
        omega
      · exact List.Pairwise.sublist hsub hp
      · intro m h2
        have h3 : (enforceMaxEventsLocked (pruneLocked s0 now).1).maxEvents
            = some m := h2
        rw [hm2] at h3
        exact enforceMax_length _ m (by rw [hm1]; exact h3)
      · intro r h2 e he
        have h3 : (enforceMaxEventsLocked (pruneLocked s0 now).1).retention
            = some r := h2
        rw [hr2] at h3
        have h4 : s0.retention = some r := h3
        have he2 : e ∈ (pruneLocked s0 now).1.events :=
          (enforceMax_sublist _).subset he
        exact pruneLocked_stale s0 now r h4 hp e he2
    unfold loadFromPayload
    split
    · exact hbody _
    · exact hbody _

theorem initStore_inv (maxE : Option Nat) (ret : Option Int) (now : Int)
    (hret : ∀ r, ret = some r → 0 < r) :
    StoreInv now (initStore maxE ret) := by
  refine ⟨hret, ?_, ?_, ?_, ?_⟩ <;> simp [initStore]

theorem runTrace_inv_aux :
    ∀ (ops : List (Int × AOp)) (s : ActivityStore) (now : Int),
      StoreInv now s →
      List.Chain' (· ≤ ·) (now :: ops.map Prod.fst) →
      (∀ p ∈ ops, opTracked p.2) →
      StoreInv ((ops.map Prod.fst).getLastD now)
        (ops.foldl (fun s p => applyOp s p.1 p.2) s) ∧
      (ops.foldl (fun s p => applyOp s p.1 p.2) s).maxEvents = s.maxEvents ∧
      (ops.foldl (fun s p => applyOp s p.1 p.2) s).retention = s.retention := by
  intro ops
  induction ops with
  | nil =>
    intro s now hinv _ _
    exact ⟨hinv, rfl, rfl⟩
  | cons p rest ih =>
    intro s now hinv hchain hops
    obtain ⟨t, op⟩ := p
    have hmap : ((t, op) :: rest).map Prod.fst = t :: rest.map Prod.fst := rfl
    rw [hmap] at hchain
    have hle : now ≤ t := (List.chain'_cons.mp hchain).1
    have hchain2 : List.Chain' (· ≤ ·) (t :: rest.map Prod.fst) :=
      (List.chain'_cons.mp hchain).2
    obtain ⟨hinv2, hmax2, hret2⟩ :=
      applyOp_inv s now t op hinv hle (hops (t, op) (List.mem_cons_self _ _))
    have hops2 : ∀ q ∈ rest, opTracked q.2 := fun q hq =>
      hops q (List.mem_cons_of_mem _ hq)
    obtain ⟨hres, hresmax, hresret⟩ := ih (applyOp s t op) t hinv2 hchain2 hops2
    have hgoal : (((t, op) :: rest).map Prod.fst).getLastD now
        = (rest.map Prod.fst).getLastD t := by
      rw [hmap, List.getLastD_cons]
    rw [hgoal]
    exact ⟨hres, hresmax.trans hmax2, hresret.trans hret2⟩

theorem chain'_headD_cons (l : List Int) (d : Int)
    (h : List.Chain' (· ≤ ·) l) :
    List.Chain' (· ≤ ·) (l.headD d :: l) := by
  cases l with
  | nil => simp
  | cons a rest => exact List.chain'_cons.mpr ⟨le_refl a, h⟩

instance opTracked.instDecidable (op : AOp) : Decidable (opTracked op) :=
  match op with
  | .add etype _ => inferInstanceAs (Decidable (etype ∈ TRACKED_EVENTS))
  | .doPrune => inferInstanceAs (Decidable True)
  | .reload => inferInstanceAs (Decidable True)

/-- **C1**: for every sequence of mutating calls (`add_event` with tracked
types, `prune`, `load_persisted_events`) with non-decreasing machine times, a
store configured with a positive `max_events` bound `m` and a positive
`retention` of `r` seconds has, immediately after any mutating call (the last
call of the trace, at time `t`), at most `m` stored events and no stored
event with a timestamp older than `t - r`. -/
theorem c1_buffer_length_and_retention (m : Nat) (r : Int) (hr : 0 < r)
    (ops : List (Int × AOp)) (t : Int) (op : AOp)
    (hchain : List.Chain' (· ≤ ·) ((ops ++ [(t, op)]).map Prod.fst))
    (htracked : ∀ p ∈ ops ++ [(t, op)], opTracked p.2) :
    (runTrace (some m) (some r) (ops ++ [(t, op)])).events.length ≤ m ∧
    ∀ e ∈ (runTrace (some m) (some r) (ops ++ [(t, op)])).events,
      ¬ e.timestamp < t - r := by
  set allOps := ops ++ [(t, op)] with hallOps
  set now0 := (allOps.map Prod.fst).headD t with hnow0
  have hinv0 : StoreInv now0 (initStore (some m) (some r)) :=
    initStore_inv (some m) (some r) now0 (fun r2 h2 => by
      injection h2 with h3
      omega)
  have hchain0 : List.Chain' (· ≤ ·) (now0 :: allOps.map Prod.fst) :=
    chain'_headD_cons _ t hchain
  obtain ⟨hinv, hmax, hret⟩ :=
    runTrace_inv_aux allOps (initStore (some m) (some r)) now0 hinv0 hchain0 htracked
  have hlast : (allOps.map Prod.fst).getLastD now0 = t := by
    rw [hallOps]
    rw [List.map_append]
    simp [List.getLastD_concat]
  rw [hlast] at hinv
  obtain ⟨_, _, _, hlen, hstale⟩ := hinv
  have hmax0 : (initStore (some m) (some r)).maxEvents = some m := rfl
  have hret0 : (initStore (some m) (some r)).retention = some r := rfl
  constructor
  · exact hlen m (by rw [hmax, hmax0])
  · exact hstale r (by rw [hret, hret0])

/-- Witness for C1 at a concrete two-call trace. -/
theorem c1_buffer_length_and_retention_witness :
    (runTrace (some 2) (some 10)
        ([(0, .add "crew_log" "a")] ++ [(1, .doPrune)])).events.length ≤ 2 ∧
    ∀ e ∈ (runTrace (some 2) (some 10)
        ([(0, .add "crew_log" "a")] ++ [(1, .doPrune)])).events,
      ¬ e.timestamp < 1 - 10 :=
  c1_buffer_length_and_retention 2 10 (by decide)
    [(0, .add "crew_log" "a")] 1 .doPrune
    (by simp [List.chain'_cons]) (by decide)

/-! ### C4: persist / reload roundtrip -/

theorem enforceMax_eq_self (s : ActivityStore)
    (h : ∀ m, s.maxEvents = some m → s.events.length ≤ m) :
    enforceMaxEventsLocked s = s := by
  cases hm : s.maxEvents with
  | none => simp [enforceMaxEventsLocked, hm]
  | some m =>
    simp only [enforceMaxEventsLocked, hm]
    split
    · next hlen =>
      have := h m hm
      omega
    · rfl

theorem dropWhile_eq_self_of_not (p : AEvent → Bool) (l : List AEvent)
    (h : ∀ e ∈ l, p e = false) : l.dropWhile p = l := by
  cases l with
  | nil => rfl
  | cons a rest =>
    rw [List.dropWhile_cons, h a (List.mem_cons_self a rest)]
    simp

theorem pruneLocked_events_of_le (s : ActivityStore) (now : Int)
    (hlen : ∀ m, s.maxEvents = some m → s.events.length ≤ m) :
    (pruneLocked s now).1.events
      = match s.retention with
        | none => s.events
        | some r => s.events.dropWhile (fun e => e.timestamp < now - r) := by
  cases hr : s.retention with
  | none => simp [pruneLocked, hr]
  | some r =>
    simp only [pruneLocked, hr]
    split
    · rfl
    · rw [enforceMax_eq_self]
      intro m hm
      have hm2 : s.maxEvents = some m := hm
      show (s.events.dropWhile (fun e => e.timestamp < now - r)).length ≤ m
      have hsub : (s.events.dropWhile (fun e => e.timestamp < now - r)).Sublist
          s.events := List.dropWhile_sublist _
      have := hsub.length_le
      have := hlen m hm2
      omega

theorem foldl_max_le (l : List AEvent) :
    ∀ (acc k : Nat), acc ≤ k → (∀ e ∈ l, e.id ≤ k) →
      l.foldl (fun a e => max a e.id) acc ≤ k := by
  induction l with
  | nil => intro acc k h _; exact h
  | cons a rest ih =>
    intro acc k h hall
    have ha := hall a (List.mem_cons_self a rest)
    exact ih (max acc a.id) k (by omega)
      (fun e he => hall e (List.mem_cons_of_mem _ he))

theorem foldl_max_ge_acc (l : List AEvent) :
    ∀ acc : Nat, acc ≤ l.foldl (fun a e => max a e.id) acc := by
  induction l with
  | nil => intro acc; exact le_refl acc
  | cons a rest ih =>
    intro acc
    have h1 : acc ≤ max acc a.id := le_max_left _ _
    exact le_trans h1 (ih (max acc a.id))

theorem le_foldl_max (l : List AEvent) :
    ∀ (acc : Nat) (e : AEvent), e ∈ l →
      e.id ≤ l.foldl (fun a e => max a e.id) acc := by
  induction l with
  | nil => intro acc e he; exact absurd he (List.not_mem_nil e)
  | cons a rest ih =>
    intro acc e he
    rcases List.mem_cons.mp he with rfl | hmem
    · calc e.id ≤ max acc e.id := le_max_right _ _
        _ ≤ _ := foldl_max_ge_acc rest (max acc e.id)
    · exact ih (max acc a.id) e hmem

theorem maxIdList_eq (l : List AEvent) (k : Nat) (e : AEvent)
    (he : e ∈ l) (hek : e.id = k) (hall : ∀ x ∈ l, x.id ≤ k) :
    maxIdList l = k := by
  refine le_antisymm (foldl_max_le l 0 k (Nat.zero_le k) hall) ?_
  rw [← hek]
  exact le_foldl_max l 0 e he

/-- A trace that leaves the buffer empty with `next_id = 2`: one `crew_log`
event recorded at time 0, then pruned away at time 5000 (retention 3600). -/
def c4Store : ActivityStore :=
  runTrace (some 500) (some 3600) [(0, .add "crew_log" "x"), (5000, .doPrune)]

/-- **C4, counterexample**: after all events have been pruned away, persisting
and reloading restores the stored `next_id` (here 2), which differs from
`max(id)+1 = 1` over the (empty) persisted event list — so id assignment does
not always continue from `max(id)+1` of the persisted events. -/
theorem c4_roundtrip_counterexample :
    (loadFromPayload (some 500) (some 3600) (persistPayload c4Store) 5000).nextId
      ≠ maxIdList (persistPayload c4Store).events + 1 := by decide

/-- **C4, amended**: for a store state satisfying the reachable-state
invariants (timestamps in insertion order, buffer within the capacity bound,
positive id counter, the newest event carrying id `next_id - 1` and all ids
below `next_id`), persisting and reloading at machine time `now` reproduces
exactly the event sequence visible through `get_events` at `now`, and the new
store's id counter equals the persisted `next_id` — which equals
`max(id) + 1` of the persisted events whenever that list is nonempty (for an
empty persisted list the stored counter is kept and may exceed 1). -/
theorem c4_roundtrip (s : ActivityStore) (now : Int)
    (hp : s.events.Pairwise (fun a b => a.timestamp ≤ b.timestamp))
    (hlen : ∀ m, s.maxEvents = some m → s.events.length ≤ m)
    (hpos : 0 < s.nextId)
    (hlast : ∀ e, s.events.getLast? = some e → e.id + 1 = s.nextId)
    (hids : ∀ e ∈ s.events, e.id + 1 ≤ s.nextId) :
    (getEvents (loadFromPayload s.maxEvents s.retention (persistPayload s) now) now).2
      = (getEvents s now).2 ∧
    (loadFromPayload s.maxEvents s.retention (persistPayload s) now).nextId
      = s.nextId ∧
    (s.events ≠ [] →
      (loadFromPayload s.maxEvents s.retention (persistPayload s) now).nextId
        = maxIdList s.events + 1) := by
  have hs2 : loadFromPayload s.maxEvents s.retention (persistPayload s) now
      = { enforceMaxEventsLocked
            (pruneLocked ⟨s.maxEvents, s.retention, s.events, 1⟩ now).1 with
          nextId := s.nextId } := by
    unfold loadFromPayload persistPayload
    split
    · rfl
    · next h => exact absurd hpos h
  set s0 : ActivityStore := ⟨s.maxEvents, s.retention, s.events, 1⟩ with hs0
  have hlen0 : ∀ m, s0.maxEvents = some m → s0.events.length ≤ m := hlen
  have hprune0 : (pruneLocked s0 now).1.events
      = match s0.retention with
        | none => s0.events
        | some r => s0.events.dropWhile (fun e => e.timestamp < now - r) :=
    pruneLocked_events_of_le s0 now hlen0
  have hprunes : (pruneLocked s now).1.events
      = match s.retention with
        | none => s.events
        | some r => s.events.dropWhile (fun e => e.timestamp < now - r) :=
    pruneLocked_events_of_le s now hlen
  have hmatch : (match s0.retention with
        | none => s0.events
        | some r => s0.events.dropWhile (fun e => e.timestamp < now - r))
      = (match s.retention with
        | none => s.events
        | some r => s.events.dropWhile (fun e => e.timestamp < now - r)) := rfl
  have hkeptlen : ∀ m, s.maxEvents = some m →
      (match s.retention with
        | none => s.events
        | some r => s.events.dropWhile (fun e => e.timestamp < now - r)).length
        ≤ m := by
    intro m hm
    cases hr : s.retention with
    | none => exact hlen m hm
    | some r =>
      have hsub : (s.events.dropWhile (fun e => e.timestamp < now - r)).Sublist
          s.events := List.dropWhile_sublist _
      have := hsub.length_le
      have := hlen m hm
      simp only
      omega
  have hE : (enforceMaxEventsLocked (pruneLocked s0 now).1).events
      = (match s.retention with
        | none => s.events
        | some r => s.events.dropWhile (fun e => e.timestamp < now - r)) := by
    rw [enforceMax_eq_self, hprune0, hmatch]
    intro m hm
    rw [hprune0, hmatch]
    exact hkeptlen m (by rw [← pruneLocked_maxEvents s0 now]; exact hm)
  refine ⟨?_, ?_, ?_⟩
  · show (pruneLocked (loadFromPayload s.maxEvents s.retention (persistPayload s) now)
        now).1.events = (pruneLocked s now).1.events
    rw [hs2]
    set s2 : ActivityStore :=
      { enforceMaxEventsLocked (pruneLocked s0 now).1 with nextId := s.nextId }
      with hs2def
    have hs2ret : s2.retention = s.retention := by
      show (enforceMaxEventsLocked (pruneLocked s0 now).1).retention = s.retention
      rw [enforceMax_retention, pruneLocked_retention]
    have hs2max : s2.maxEvents = s.maxEvents := by
      show (enforceMaxEventsLocked (pruneLocked s0 now).1).maxEvents = s.maxEvents
      rw [enforceMax_maxEvents, pruneLocked_maxEvents]
    have hs2ev : s2.events
        = (match s.retention with
          | none => s.events
          | some r => s.events.dropWhile (fun e => e.timestamp < now - r)) := hE
    have hlen2 : ∀ m, s2.maxEvents = some m → s2.events.length ≤ m := by
      intro m hm
      rw [hs2ev]
      exact hkeptlen m (by rw [← hs2max]; exact hm)
    rw [pruneLocked_events_of_le s2 now hlen2, hprunes, hs2ret, hs2ev]
    cases hr : s.retention with
    | none => simp
    | some r =>
      simp only
      refine dropWhile_eq_self_of_not _ _ ?_
      intro e he
      have := mem_dropWhile_not_lt (now - r) s.events hp e he
      simpa using this
  · rw [hs2]
  · intro hne
    rw [hs2]
    show s.nextId = maxIdList s.events + 1
    have hgl := List.getLast?_eq_getLast s.events hne
    set e := s.events.getLast hne with he
    have hmem : e ∈ s.events := List.getLast_mem hne
    have hid : e.id + 1 = s.nextId := hlast e hgl
    have hmax : maxIdList s.events = e.id :=
      maxIdList_eq s.events e.id e hmem rfl (fun x hx => by
        have := hids x hx
        omega)
    omega

/-- Witness for C4 (amended) at a concrete one-event store. -/
theorem c4_roundtrip_witness :
    (getEvents (loadFromPayload (some 500) (some 3600)
        (persistPayload ⟨some 500, some 3600, [⟨1, "crew_log", 0, "x"⟩], 2⟩) 10) 10).2
      = (getEvents ⟨some 500, some 3600, [⟨1, "crew_log", 0, "x"⟩], 2⟩ 10).2 ∧
    (loadFromPayload (some 500) (some 3600)
        (persistPayload ⟨some 500, some 3600, [⟨1, "crew_log", 0, "x"⟩], 2⟩) 10).nextId
      = (⟨some 500, some 3600, [⟨1, "crew_log", 0, "x"⟩], 2⟩ : ActivityStore).nextId ∧
    ((⟨some 500, some 3600, [⟨1, "crew_log", 0, "x"⟩], 2⟩ : ActivityStore).events ≠ [] →
      (loadFromPayload (some 500) (some 3600)
          (persistPayload ⟨some 500, some 3600, [⟨1, "crew_log", 0, "x"⟩], 2⟩) 10).nextId
        = maxIdList (⟨some 500, some 3600, [⟨1, "crew_log", 0, "x"⟩], 2⟩ : ActivityStore).events + 1) :=
  c4_roundtrip ⟨some 500, some 3600, [⟨1, "crew_log", 0, "x"⟩], 2⟩ 10
    (by simp) (by intro m hm; injection hm with h; subst h; decide) (by decide)
    (by intro e he; simp at he; subst he; rfl) (by decide)

/-! ## Log classification (`categorize_log` in `backend/crew_broadcast.py`)

Python's `term in message.lower()` is a substring test after lowercasing.
The log keywords are pure ASCII, so ASCII lowercasing is faithful here. -/

/-- ASCII lowercasing of one character (what `str.lower()` does on ASCII). -/
def toLowerAscii (c : Char) : Char :=
  if 'A' ≤ c ∧ c ≤ 'Z' then Char.ofNat (c.toNat + 32) else c

/-- `message.lower()`. -/
def strLower (s : String) : String := ⟨s.data.map toLowerAscii⟩

/-- Is `needle` a contiguous infix of the character list? -/
def charListInfix (needle : List Char) : List Char → Bool
  | [] => needle.isEmpty
  | c :: t => needle.isPrefixOf (c :: t) || charListInfix needle t

/-- Python's `needle in hay` on strings. -/
def strContains (hay needle : String) : Bool :=
  charListInfix needle.data hay.data

/-- `categorize_log`: ordered keyword groups, first match wins, INFO fallback. -/
def categorizeLog (message : String) : String :=
  if ["search", "query", "looking for", "find"].any
      (fun t => strContains (strLower message) t) then "SEARCH"
  else if ["analyz", "process", "evaluat", "assess"].any
      (fun t => strContains (strLower message) t) then "ANALYSIS"
  else if ["decid", "select", "choose", "determin"].any
      (fun t => strContains (strLower message) t) then "DECISION"
  else if ["result", "found", "complet", "finish"].any
      (fun t => strContains (strLower message) t) then "RESULT"
  else if ["error", "fail", "exception", "issue"].any
      (fun t => strContains (strLower message) t) then "ERROR"
  else if ["execut", "perform", "run", "start"].any
      (fun t => strContains (strLower message) t) then "ACTION"
  else "INFO"

/-- **C5**: `categorize_log` checks its keyword groups in the fixed priority
order SEARCH > ANALYSIS > DECISION > RESULT > ERROR > ACTION with INFO as
fallback; in particular any message containing a search keyword — even one
that also contains an error keyword — classifies as SEARCH, and the three
concrete examples classify as SEARCH, ERROR and INFO respectively. -/
theorem c5_categorize_priority :
    (∀ m : String,
      ["search", "query", "looking for", "find"].any
          (fun t => strContains (strLower m) t) = true →
      ["error", "fail", "exception", "issue"].any
          (fun t => strContains (strLower m) t) = true →
      categorizeLog m = "SEARCH") ∧
    categorizeLog "Starting search for documents" = "SEARCH" ∧
    categorizeLog "Failure: unexpected exception occurred" = "ERROR" ∧
    categorizeLog "General update" = "INFO" := by
  refine ⟨?_, by decide, by decide, by decide⟩
  intro m hs _
  simp only [categorizeLog, hs, if_true, if_pos]

/-- Witness for C5's first conjunct on a message holding both a search and an
error keyword. -/
theorem c5_categorize_priority_witness :
    categorizeLog "search failed with error" = "SEARCH" :=
  c5_categorize_priority.1 "search failed with error" (by decide) (by decide)

/-! ## Log deduplication (`LogDeduplicator` in `backend/crew_broadcast.py`)

The Python code keys `recent_logs` by `hash((message, agent))`; the embedding
keys by the pair itself.  `datetime.utcnow()` is the integer `now` passed in;
`(current_time - last_seen).total_seconds() < time_window` is the strict
comparison below. -/

/-- `LogDeduplicator` state. -/
structure LogDedup where
  recentLogs : List ((String × String) × (Int × Nat))
  timeWindow : Int
  deriving Repr, DecidableEq

/-- `LogDeduplicator.is_duplicate`: returns `(flag, count)` and the updated
state.  A key seen strictly within the window increments the running count
and flags a duplicate; otherwise the entry is reset to `(now, 1)` and the
line is new. -/
def isDuplicate (d : LogDedup) (message agent : String) (now : Int) :
    (Bool × Nat) × LogDedup :=
  match alookup d.recentLogs (message, agent) with
  | some (lastSeen, count) =>
    if now - lastSeen < d.timeWindow then
      ((true, count + 1),
       { d with recentLogs := aset d.recentLogs (message, agent) (now, count + 1) })
    else
      ((false, 1), { d with recentLogs := aset d.recentLogs (message, agent) (now, 1) })
  | none =>
    ((false, 1), { d with recentLogs := aset d.recentLogs (message, agent) (now, 1) })

/-- **C6**: with the same `(message, agent)` key, a first call (key unseen)
returns `(False, 1)`; a second call strictly within `time_window` seconds
returns `(True, 2)`; a third call once the window has elapsed since the
second call returns `(False, 1)` again — the window start and count reset. -/
theorem c6_dedup_window (d0 : LogDedup) (message agent : String) (t1 t2 t3 : Int)
    (h0 : alookup d0.recentLogs (message, agent) = none)
    (h12 : t2 - t1 < d0.timeWindow)
    (h23 : ¬ t3 - t2 < d0.timeWindow) :
    (isDuplicate d0 message agent t1).1 = (false, 1) ∧
    (isDuplicate (isDuplicate d0 message agent t1).2 message agent t2).1
      = (true, 2) ∧
    (isDuplicate
        (isDuplicate (isDuplicate d0 message agent t1).2 message agent t2).2
        message agent t3).1 = (false, 1) := by
  have e1 : isDuplicate d0 message agent t1
      = ((false, 1),
         ⟨aset d0.recentLogs (message, agent) (t1, 1), d0.timeWindow⟩) := by
    simp [isDuplicate, h0]
  have hl1 : alookup (aset d0.recentLogs (message, agent) (t1, 1))
      (message, agent) = some (t1, 1) := alookup_aset_self _ _ _
  have e2 : isDuplicate
      (⟨aset d0.recentLogs (message, agent) (t1, 1), d0.timeWindow⟩ : LogDedup)
      message agent t2
      = ((true, 2),
         ⟨aset (aset d0.recentLogs (message, agent) (t1, 1)) (message, agent) (t2, 2),
          d0.timeWindow⟩) := by
    simp [isDuplicate, hl1, h12]
  have hl2 : alookup
      (aset (aset d0.recentLogs (message, agent) (t1, 1)) (message, agent) (t2, 2))
      (message, agent) = some (t2, 2) := alookup_aset_self _ _ _
  have e3 : isDuplicate
      (⟨aset (aset d0.recentLogs (message, agent) (t1, 1)) (message, agent) (t2, 2),
        d0.timeWindow⟩ : LogDedup) message agent t3
      = ((false, 1),
         ⟨aset (aset (aset d0.recentLogs (message, agent) (t1, 1))
            (message, agent) (t2, 2)) (message, agent) (t3, 1),
          d0.timeWindow⟩) := by
    simp [isDuplicate, hl2, h23]
  rw [e1]
  refine ⟨rfl, ?_, ?_⟩
  · rw [e2]
  · rw [e2, e3]

/-- Witness for C6 with a 5-second window and calls at t = 0, 3, 9. -/
theorem c6_dedup_window_witness :
    (isDuplicate ⟨[], 5⟩ "m" "a" 0).1 = (false, 1) ∧
    (isDuplicate (isDuplicate ⟨[], 5⟩ "m" "a" 0).2 "m" "a" 3).1 = (true, 2) ∧
    (isDuplicate (isDuplicate (isDuplicate ⟨[], 5⟩ "m" "a" 0).2 "m" "a" 3).2
      "m" "a" 9).1 = (false, 1) :=
  c6_dedup_window ⟨[], 5⟩ "m" "a" 0 3 9 (by decide) (by decide) (by decide)

/-! ## Request-metric percentile (`_calculate_percentile` in `backend/main.py`)

Python float arithmetic is modelled by exact rationals (the claim is about
the interpolation algorithm, and the sample durations are exact).  `int(k)`,
`math.floor(k)` and `math.ceil(k)` agree with `Int.floor`/`Int.ceil` for the
nonnegative fractional indices the code produces. -/

/-- The body of `_calculate_percentile` after computing
`k = (len - 1) * (percentile / 100)` (the locals `lower_index`/`upper_index`
are `math.floor(k)`/`math.ceil(k)`). -/
def percentileInterp (sortedValues : List ℚ) (k : ℚ) : ℚ :=
  if Int.floor k = Int.ceil k then sortedValues.getD (Int.floor k).toNat 0
  else
    sortedValues.getD (Int.floor k).toNat 0 * ((Int.ceil k : ℚ) - k)
      + sortedValues.getD (Int.ceil k).toNat 0 * (k - (Int.floor k : ℚ))

/-- `_calculate_percentile(sorted_values, percentile)`. -/
def calculatePercentile (sortedValues : List ℚ) (percentile : ℚ) : ℚ :=
  if sortedValues.length = 0 then 0
  else if sortedValues.length = 1 then sortedValues.getD 0 0
  else
    percentileInterp sortedValues
      (((sortedValues.length : ℚ) - 1) * (percentile / 100))

/-- Modelled from the spec's words: linear interpolation between the order
statistics at the floor and ceiling of the fractional index
`(n - 1) * p / 100`. -/
def specPercentileFormula (vs : List ℚ) (p : ℚ) : ℚ :=
  vs.getD (Int.floor (((vs.length : ℚ) - 1) * (p / 100))).toNat 0
    + (((vs.length : ℚ) - 1) * (p / 100)
        - (Int.floor (((vs.length : ℚ) - 1) * (p / 100)) : ℚ))
      * (vs.getD (Int.ceil (((vs.length : ℚ) - 1) * (p / 100))).toNat 0
         - vs.getD (Int.floor (((vs.length : ℚ) - 1) * (p / 100))).toNat 0)

/-- **C8**: `_calculate_percentile` computes exactly the spec's linear
interpolation between order statistics at fractional index `(n-1)*p/100`,
and on the sorted samples `[10, 20, 30, 40, 50]` the 95th percentile
is `48`. -/
theorem c8_percentile_interpolation :
    (∀ (vs : List ℚ) (p : ℚ),
      calculatePercentile vs p = specPercentileFormula vs p) ∧
    calculatePercentile [10, 20, 30, 40, 50] 95 = 48 := by
  constructor
  · intro vs p
    by_cases h0 : vs.length = 0
    · have hnil : vs = [] := List.length_eq_zero.mp h0
      subst hnil
      simp [calculatePercentile, specPercentileFormula, List.getD]
    · by_cases h1 : vs.length = 1
      · have hk : ((vs.length : ℚ) - 1) * (p / 100) = 0 := by
          rw [h1]; push_cast; ring
        simp only [calculatePercentile, h0, if_false, h1, if_true,
          specPercentileFormula, hk]
        norm_num
      · simp only [calculatePercentile, h0, if_false, h1, if_true,
          specPercentileFormula, percentileInterp]
        set k : ℚ := ((vs.length : ℚ) - 1) * (p / 100) with hkdef
        by_cases hfc : Int.floor k = Int.ceil k
        · have hkfl : (Int.floor k : ℚ) = k := by
            refine le_antisymm (Int.floor_le k) ?_
            have h2 := Int.le_ceil k
            rw [← hfc] at h2
            exact h2
          rw [if_pos hfc, hkfl]
          ring
        · have hceil : Int.ceil k = Int.floor k + 1 := by
            have h2 := Int.ceil_le_floor_add_one k
            have h3 := Int.floor_le_ceil k
            omega
          rw [if_neg hfc, hceil]
          push_cast
          ring
  · have hk : ((([10, 20, 30, 40, 50] : List ℚ).length : ℚ) - 1) * (95 / 100)
        = 19 / 5 := by
      norm_num
    have hfl : Int.floor ((19 : ℚ) / 5) = 3 := by norm_num
    have hcl : Int.ceil ((19 : ℚ) / 5) = 4 := by
      rw [Int.ceil_eq_iff]
      norm_num
    have h3 : Int.toNat 3 = 3 := rfl
    have h4 : Int.toNat 4 = 4 := rfl
    simp only [calculatePercentile, percentileInterp, hk, hfl, hcl, h3, h4]
    norm_num [List.getD]

/-! ## Crew identifiers (`normalize_crew_identifier` in `backend/crew_storage.py`)

Python's `str.strip()` / the `^[A-Za-z_][A-Za-z0-9_]*$` regex are modelled
over the character list.  `raise ValueError` is `Except.error`.  (Python's
unicode-aware `isalpha` and the ASCII regex both reject any candidate this
ASCII model rejects with a `ValueError`, so the success set agrees on ASCII
input.) -/

/-- Trim whitespace from both ends (`str.strip()`). -/
def stripChars (s : String) : String :=
  ⟨(((s.data.dropWhile Char.isWhitespace).reverse.dropWhile
      Char.isWhitespace).reverse)⟩

/-- `candidate.replace("-", "_").replace(".", "_")` (single-character
replacements, hence a character map). -/
def normalizeChars (s : String) : String :=
  ⟨s.data.map (fun c => if c = '-' ∨ c = '.' then '_' else c)⟩

/-- First character class of the `MODULE_IMPORT_NAME` regex. -/
def isIdentStart (c : Char) : Bool :=
  ('A' ≤ c ∧ c ≤ 'Z') ∨ ('a' ≤ c ∧ c ≤ 'z') ∨ c = '_'

/-- Remaining character class of the `MODULE_IMPORT_NAME` regex. -/
def isIdentChar (c : Char) : Bool :=
  isIdentStart c ∨ ('0' ≤ c ∧ c ≤ '9')

/-- `MODULE_IMPORT_NAME.fullmatch`, i.e. `^[A-Za-z_][A-Za-z0-9_]*$`. -/
def matchesModuleImportName (s : String) : Bool :=
  match s.data with
  | [] => false
  | c :: rest => isIdentStart c && rest.all isIdentChar

/-- `normalize_crew_identifier`. -/
def normalizeCrewIdentifier (rawId : String) : Except String String :=
  if (stripChars rawId).data = [] then .error "Crew ID cannot be empty"
  else if (normalizeChars (stripChars rawId)).data = [] then
    .error "Crew ID cannot be empty"
  else if ((normalizeChars (stripChars rawId)).data.headD '_').isAlpha = false ∧
      (normalizeChars (stripChars rawId)).data.headD '_' ≠ '_' then
    .error "Crew IDs must start with a letter or underscore"
  else if matchesModuleImportName (normalizeChars (stripChars rawId)) = false then
    .error "Crew IDs may only contain letters, numbers, hyphens, periods, or underscores"
  else .ok (normalizeChars (stripChars rawId))

/-! ## Crew runtime (`CrewRuntime` in `backend/crew_runtime.py`)

A subprocess is a record of the behaviours `stop_crew` can observe:
`returncode` (both the asyncio process and the Windows wrapper expose the
attribute, `none` while still running), whether `terminate()` raises, whether
a `kill` method exists, and whether `kill()` raises.  `start_crew`'s
filesystem and spawning collaborators are supplied as `StartDeps`; the
`spawned` counter counts subprocess creations, so `spawned = 0` states that
no subprocess was created. -/

/-- Observable behaviour of a crew subprocess handle. -/
structure Process where
  pid : String
  returncode : Option Int
  terminateRaises : Bool
  hasKill : Bool
  killRaises : Bool
  deriving Repr, DecidableEq

/-- One entry of `running_crews` (`{"process": ..., "process_id": ...}`). -/
structure RunningCrew where
  process : Option Process
  processId : String
  deriving Repr, DecidableEq

/-- External collaborators of `start_crew`. -/
structure StartDeps where
  resolveOk : Bool
  mainPyExists : Bool
  spawnedProcess : Process
  deriving Repr, DecidableEq

/-- How `start_crew` terminates. -/
inductive StartOutcome
  | started (processId : String)
  | invalidId (msg : String)
  | alreadyRunning (crewId : String)
  | resolveError (crewId : String)
  | mainPyMissing (crewId : String)
  deriving Repr, DecidableEq

/-- Result of `start_crew`: outcome, the new `running_crews` map, and how
many subprocesses were spawned during the call. -/
structure StartResult where
  outcome : StartOutcome
  running : List (String × RunningCrew)
  spawned : Nat
  deriving Repr, DecidableEq

/-- `CrewRuntime.start_crew` up to the registration of the new handle
(log streaming and notification happen after the handle is registered and do
not change `running_crews`). -/
def startCrew (deps : StartDeps) (running : List (String × RunningCrew))
    (crewId : String) : StartResult :=
  match normalizeCrewIdentifier crewId with
  | .error m => ⟨.invalidId m, running, 0⟩
  | .ok nid =>
    if (alookup running nid).isSome then ⟨.alreadyRunning nid, running, 0⟩
    else if deps.resolveOk = false then ⟨.resolveError nid, running, 0⟩
    else if deps.mainPyExists = false then ⟨.mainPyMissing nid, running, 0⟩
    else
      ⟨.started deps.spawnedProcess.pid,
       aset running nid ⟨some deps.spawnedProcess, deps.spawnedProcess.pid⟩, 1⟩

/-- What `stop_crew` did (all of these return normally). -/
inductive StopAction
  | noHandle
  | noProcess
  | alreadyExited (code : Int)
  | terminated
  | killedAfterTerminateError
  | killFailedSwallowed
  | noKillMethod
  deriving Repr, DecidableEq

/-- `CrewRuntime.stop_crew`.  The `ValueError` raised by
`normalize_crew_identifier` is not caught and propagates (`Except.error`);
every other path returns normally. -/
def stopCrew (running : List (String × RunningCrew)) (crewId : String) :
    Except String StopAction :=
  match normalizeCrewIdentifier crewId with
  | .error m => .error m
  | .ok nid =>
    match alookup running nid with
    | none => .ok .noHandle
    | some info =>
      match info.process with
      | none => .ok .noProcess
      | some p =>
        match p.returncode with
        | some code => .ok (.alreadyExited code)
        | none =>
          if p.terminateRaises = false then .ok .terminated
          else if p.hasKill then
            if p.killRaises = false then .ok .killedAfterTerminateError
            else .ok .killFailedSwallowed
          else .ok .noKillMethod

/-- **C2**: when the normalized crew id already has a handle in
`running_crews`, `start_crew` fails with the "already running" error, spawns
no subprocess, and leaves the map — including the original handle —
unchanged. -/
theorem c2_start_already_running (deps : StartDeps)
    (running : List (String × RunningCrew)) (crewId nid : String)
    (h : RunningCrew)
    (hn : normalizeCrewIdentifier crewId = .ok nid)
    (hmem : alookup running nid = some h) :
    startCrew deps running crewId = ⟨.alreadyRunning nid, running, 0⟩ ∧
    alookup (startCrew deps running crewId).running nid = some h := by
  have hstep : startCrew deps running crewId = ⟨.alreadyRunning nid, running, 0⟩ := by
    unfold startCrew
    rw [hn]
    simp [hmem]
  exact ⟨hstep, by rw [hstep]; exact hmem⟩

/-- Witness for C2: starting `demo` while `demo` is already running. -/
theorem c2_start_already_running_witness :
    startCrew ⟨true, true, ⟨"9", none, false, true, false⟩⟩
        [("demo", ⟨none, "1"⟩)] "demo"
      = ⟨.alreadyRunning "demo", [("demo", ⟨none, "1"⟩)], 0⟩ ∧
    alookup (startCrew ⟨true, true, ⟨"9", none, false, true, false⟩⟩
        [("demo", ⟨none, "1"⟩)] "demo").running "demo"
      = some ⟨none, "1"⟩ :=
  c2_start_already_running ⟨true, true, ⟨"9", none, false, true, false⟩⟩
    [("demo", ⟨none, "1"⟩)] "demo" "demo" ⟨none, "1"⟩ (by decide) (by decide)

/-- **C3, counterexample**: `stop_crew("")` propagates the `ValueError`
raised by `normalize_crew_identifier` ("Crew ID cannot be empty"), so
`stop_crew` does not return normally for every crew_id string. -/
theorem c3_stop_counterexample :
    stopCrew [] "" = .error "Crew ID cannot be empty" := by decide

/-- **C3, amended**: for every crew_id whose identifier normalization
succeeds, `stop_crew` returns normally: it is a no-op when no handle (or no
process) is present, returns without signaling when the process has already
exited, escalates a raising `terminate()` to `kill()`, and swallows a raising
`kill()`.  (When normalization fails — e.g. on an empty id — the `ValueError`
propagates to the caller.) -/
theorem c3_stop_never_raises (running : List (String × RunningCrew))
    (crewId nid : String)
    (hn : normalizeCrewIdentifier crewId = .ok nid) :
    (∃ a, stopCrew running crewId = .ok a) ∧
    (alookup running nid = none → stopCrew running crewId = .ok .noHandle) ∧
    (∀ info p code, alookup running nid = some info → info.process = some p →
      p.returncode = some code →
      stopCrew running crewId = .ok (.alreadyExited code)) ∧
    (∀ info p, alookup running nid = some info → info.process = some p →
      p.returncode = none → p.terminateRaises = true → p.hasKill = true →
      p.killRaises = false →
      stopCrew running crewId = .ok .killedAfterTerminateError) ∧
    (∀ info p, alookup running nid = some info → info.process = some p →
      p.returncode = none → p.terminateRaises = true → p.hasKill = true →
      p.killRaises = true →
      stopCrew running crewId = .ok .killFailedSwallowed) := by
  refine ⟨?_, ?_, ?_, ?_, ?_⟩
  · cases hl : alookup running nid with
    | none =>
      simp only [stopCrew, hn, hl]
      exact ⟨_, rfl⟩
    | some info =>
      cases hp : info.process with
      | none =>
        simp only [stopCrew, hn, hl, hp]
        exact ⟨_, rfl⟩
      | some p =>
        cases hrc : p.returncode with
        | some code =>
          simp only [stopCrew, hn, hl, hp, hrc]
          exact ⟨_, rfl⟩
        | none =>
          cases ht : p.terminateRaises with
          | false =>
            simp only [stopCrew, hn, hl, hp, hrc, ht, if_true]
            exact ⟨_, rfl⟩
          | true =>
            cases hk : p.hasKill with
            | false =>
              simp [stopCrew, hn, hl, hp, hrc, ht, hk]
            | true =>
              cases hkr : p.killRaises with
              | false => simp [stopCrew, hn, hl, hp, hrc, ht, hk, hkr]
              | true => simp [stopCrew, hn, hl, hp, hrc, ht, hk, hkr]
  · intro hl
    simp only [stopCrew, hn, hl]
  · intro info p code hl hp hrc
    simp only [stopCrew, hn, hl, hp, hrc]
  · intro info p hl hp hrc ht hk hkr
    simp [stopCrew, hn, hl, hp, hrc, ht, hk, hkr]
  · intro info p hl hp hrc ht hk hkr
    simp [stopCrew, hn, hl, hp, hrc, ht, hk, hkr]

/-- Witness for C3 (amended): a crew whose process raises on both
`terminate()` and `kill()` — stop still returns normally. -/
theorem c3_stop_never_raises_witness :
    stopCrew [("demo", ⟨some ⟨"1", none, true, true, true⟩, "1"⟩)] "demo"
      = .ok .killFailedSwallowed :=
  (c3_stop_never_raises [("demo", ⟨some ⟨"1", none, true, true, true⟩, "1"⟩)]
      "demo" "demo" (by decide)).2.2.2.2
    ⟨some ⟨"1", none, true, true, true⟩, "1"⟩ ⟨"1", none, true, true, true⟩
    (by decide) rfl rfl rfl rfl rfl

/-! ## Operation tracking and the per-line streaming step
(`OperationTracker` and `CrewLogBroadcaster.stream_process_logs` in
`backend/crew_broadcast.py`)

`stream_process_logs` handles each decoded, non-blank log line by
classifying it, updating the operation tracker, building the `log_entry`
dict, consulting the deduplicator, and then — unless the line is a
suppressed duplicate — recording a `crew_log` activity event and emitting a
`crew_log` Socket.IO event.  The embedding models that per-line body.
`extract_agent_name(text)` (a regex scan) and the time-derived fresh
operation id from `start_operation` are passed in as the `agent` and
`freshId` parameters. -/

/-- One entry of `OperationTracker.operations`. -/
structure OpInfo where
  opType : String
  agent : String
  startTime : Int
  status : String
  sequence : Nat
  endTime : Option Int
  deriving Repr, DecidableEq

/-- `OperationTracker` state. -/
structure OperationTracker where
  operations : List (String × OpInfo)
  currentOperationId : Option String
  deriving Repr, DecidableEq

/-- `OperationTracker.start_operation` (the generated time-derived id is the
`freshId` argument). -/
def startOperation (t : OperationTracker) (freshId operationType agent : String)
    (now : Int) : OperationTracker × String :=
  ({ operations := aset t.operations freshId
       ⟨operationType, agent, now, "in_progress", 0, none⟩,
     currentOperationId := some freshId }, freshId)

/-- `OperationTracker.update_operation` as called from the streaming loop
(no `status` argument): bump and return the sequence counter, 0 for an
unknown id. -/
def updateOperation (t : OperationTracker) (operationId : String) :
    OperationTracker × Nat :=
  match alookup t.operations operationId with
  | none => (t, 0)
  | some info =>
    ({ t with
        operations :=
          aset t.operations operationId
            ⟨info.opType, info.agent, info.startTime, info.status,
             info.sequence + 1, info.endTime⟩ },
     info.sequence + 1)

/-- `OperationTracker.end_operation` with the default `status="complete"`:
mark complete, stamp `end_time`, and clear the current slot when it points at
this operation. -/
def endOperation (t : OperationTracker) (operationId : String) (now : Int) :
    OperationTracker :=
  match alookup t.operations operationId with
  | none => t
  | some info =>
    { operations :=
        aset t.operations operationId
          ⟨info.opType, info.agent, info.startTime, "complete",
           info.sequence, some now⟩,
      currentOperationId :=
        if t.currentOperationId = some operationId then none
        else t.currentOperationId }

/-- The "thinking" categories that may open an operation. -/
def SAD : List String := ["SEARCH", "ANALYSIS", "DECISION"]

/-- The operation-tracking block of the streaming loop: returns the updated
tracker, `operation_id_for_log`, and `sequence`. -/
def trackCategory (t : OperationTracker) (category agent freshId : String)
    (now : Int) : OperationTracker × Option String × Nat :=
  if category ∈ SAD then
    match t.currentOperationId with
    | none =>
      ((updateOperation (startOperation t freshId category agent now).1 freshId).1,
       some freshId,
       (updateOperation (startOperation t freshId category agent now).1 freshId).2)
    | some opId =>
      ((updateOperation t opId).1, some opId, (updateOperation t opId).2)
  else if category = "RESULT" then
    match t.currentOperationId with
    | some opId =>
      (endOperation (updateOperation t opId).1 opId now, none,
       (updateOperation t opId).2)
    | none =>
      -- `elif category == "RESULT" and current:` fails when no operation is
      -- open; `elif current:` then also fails, so the final else applies.
      (t, none, 0)
  else
    match t.currentOperationId with
    | some opId =>
      ((updateOperation t opId).1, some opId, (updateOperation t opId).2)
    | none => (t, none, 0)

/-- The `log_entry` dict (after `isDuplicate`/`duplicateCount` are added). -/
structure LogEntry where
  crewId : String
  message : String
  level : String
  timestamp : Int
  category : String
  agent : String
  operationId : Option String
  sequence : Nat
  isDuplicate : Bool
  duplicateCount : Nat
  deriving Repr, DecidableEq

/-- Observable outputs of one line: an activity-store record
(`self._activity_callback("crew_log", log_entry)`) and a Socket.IO emit
(`sio.emit("crew_log", log_entry)`). -/
inductive Effect
  | recordActivity (eventType : String) (entry : LogEntry)
  | emit (event : String) (entry : LogEntry)
  deriving Repr, DecidableEq

/-- Combined mutable state of the broadcaster. -/
structure BroadcastState where
  dedup : LogDedup
  tracker : OperationTracker
  deriving Repr, DecidableEq

/-- Result of processing one line. -/
structure LineResult where
  state : BroadcastState
  entry : LogEntry
  effects : List Effect
  deriving Repr, DecidableEq

/-- The `log_entry` built for a line. -/
def buildEntry (st : BroadcastState) (crewId text level agent : String)
    (now : Int) (freshId : String) : LogEntry :=
  ⟨crewId, text, if level = "error" then "error" else "info", now,
   categorizeLog text, agent,
   (trackCategory st.tracker (categorizeLog text) agent freshId now).2.1,
   (trackCategory st.tracker (categorizeLog text) agent freshId now).2.2,
   (isDuplicate st.dedup text agent now).1.1,
   (isDuplicate st.dedup text agent now).1.2⟩

/-- The per-line body of `stream_process_logs`: categorize, track, build the
entry, deduplicate, and suppress the outputs of a repeated duplicate
(`if is_duplicate and duplicate_count > 1: continue`). -/
def processLine (st : BroadcastState) (crewId text level agent : String)
    (now : Int) (freshId : String) : LineResult :=
  ⟨⟨(isDuplicate st.dedup text agent now).2,
    (trackCategory st.tracker (categorizeLog text) agent freshId now).1⟩,
   buildEntry st crewId text level agent now freshId,
   if (isDuplicate st.dedup text agent now).1.1 = true
       ∧ (isDuplicate st.dedup text agent now).1.2 > 1 then []
   else
     [.recordActivity "crew_log" (buildEntry st crewId text level agent now freshId),
      .emit "crew_log" (buildEntry st crewId text level agent now freshId)]⟩

theorem updateOperation_found (t : OperationTracker) (opId : String) (info : OpInfo)
    (h : alookup t.operations opId = some info) :
    updateOperation t opId
      = ({ t with
            operations :=
              aset t.operations opId
                ⟨info.opType, info.agent, info.startTime, info.status,
                 info.sequence + 1, info.endTime⟩ },
         info.sequence + 1) := by
  simp [updateOperation, h]

theorem endOperation_found (t : OperationTracker) (opId : String) (info : OpInfo)
    (now : Int) (h : alookup t.operations opId = some info) :
    endOperation t opId now
      = { operations :=
            aset t.operations opId
              ⟨info.opType, info.agent, info.startTime, "complete",
               info.sequence, some now⟩,
          currentOperationId :=
            if t.currentOperationId = some opId then none
            else t.currentOperationId } := by
  simp [endOperation, h]

theorem trackCategory_result_open (t : OperationTracker) (agent freshId : String)
    (now : Int) (opId : String) (hc : t.currentOperationId = some opId) :
    trackCategory t "RESULT" agent freshId now
      = (endOperation (updateOperation t opId).1 opId now, none,
         (updateOperation t opId).2) := by
  simp [trackCategory, SAD, hc]


theorem trackCategory_opId_iff (t : OperationTracker)
    (category agent freshId : String) (now : Int) :
    (trackCategory t category agent freshId now).2.1 ≠ none
      ↔ (category ∈ SAD
         ∨ (category ≠ "RESULT" ∧ t.currentOperationId ≠ none)) := by
  simp only [trackCategory]
  by_cases hs : category ∈ SAD
  · rw [if_pos hs]
    cases hc : t.currentOperationId with
    | none => simp [hs]
    | some opId => simp [hs]
  · rw [if_neg hs]
    by_cases hr : category = "RESULT"
    · rw [if_pos hr]
      cases hc : t.currentOperationId with
      | none => simp [hs, hr, SAD]
      | some opId => simp [hs, hr, SAD]
    · rw [if_neg hr]
      cases hc : t.currentOperationId with
      | none => simp [hs, hr, hc]
      | some opId => simp [hs, hr, hc]

/-- **C9**: a RESULT-classified line seen while an operation is open bumps
that operation's sequence counter and closes it (status "complete", end time
stamped, current slot cleared), yet the log entry built for that very line
carries `operationId = none`; and across all lines, the entry's
`operationId` is non-null exactly for SEARCH/ANALYSIS/DECISION lines and for
non-RESULT lines seen while an operation is open. -/
theorem c9_result_closes_operation_unlabelled (st : BroadcastState)
    (crewId text level agent : String) (now : Int) (freshId opId : String)
    (info : OpInfo)
    (hcat : categorizeLog text = "RESULT")
    (hcur : st.tracker.currentOperationId = some opId)
    (hop : alookup st.tracker.operations opId = some info) :
    alookup (processLine st crewId text level agent now freshId).state.tracker.operations opId
      = some ⟨info.opType, info.agent, info.startTime, "complete",
              info.sequence + 1, some now⟩ ∧
    (processLine st crewId text level agent now freshId).state.tracker.currentOperationId
      = none ∧
    (processLine st crewId text level agent now freshId).entry.operationId
      = none ∧
    (∀ (st2 : BroadcastState) (crewId2 text2 level2 agent2 : String)
        (now2 : Int) (freshId2 : String),
      (processLine st2 crewId2 text2 level2 agent2 now2 freshId2).entry.operationId ≠ none
        ↔ (categorizeLog text2 ∈ SAD
           ∨ (categorizeLog text2 ≠ "RESULT"
              ∧ st2.tracker.currentOperationId ≠ none))) := by
  have htr : (processLine st crewId text level agent now freshId).state.tracker
      = (trackCategory st.tracker (categorizeLog text) agent freshId now).1 := rfl
  have hopidd : (processLine st crewId text level agent now freshId).entry.operationId
      = (trackCategory st.tracker (categorizeLog text) agent freshId now).2.1 :=
    rfl
  have htc := trackCategory_result_open st.tracker agent freshId now opId hcur
  have hupd := updateOperation_found st.tracker opId info hop
  have h1 : alookup ((updateOperation st.tracker opId).1).operations opId
      = some ⟨info.opType, info.agent, info.startTime, info.status,
              info.sequence + 1, info.endTime⟩ := by
    rw [hupd]
    exact alookup_aset_self _ _ _
  have hcur1 : ((updateOperation st.tracker opId).1).currentOperationId
      = some opId := by
    rw [hupd]
    exact hcur
  have hend := endOperation_found ((updateOperation st.tracker opId).1) opId
    ⟨info.opType, info.agent, info.startTime, info.status,
     info.sequence + 1, info.endTime⟩ now h1
  refine ⟨?_, ?_, ?_, ?_⟩
  · rw [htr, hcat, htc]
    show alookup (endOperation (updateOperation st.tracker opId).1 opId now).operations opId
      = _
    rw [hend]
    exact alookup_aset_self _ _ _
  · rw [htr, hcat, htc]
    show (endOperation (updateOperation st.tracker opId).1 opId now).currentOperationId
      = none
    rw [hend]
    simp [hcur1]
  · rw [hopidd, hcat, htc]
  · intro st2 crewId2 text2 level2 agent2 now2 freshId2
    exact trackCategory_opId_iff st2.tracker (categorizeLog text2) agent2
      freshId2 now2

/-- Witness for C9: a "Found the result" line while operation `op1` (sequence
3) is open. -/
theorem c9_result_closes_operation_unlabelled_witness :
    alookup (processLine
        ⟨⟨[], 5⟩, ⟨[("op1", ⟨"SEARCH", "sys", 0, "in_progress", 3, none⟩)],
          some "op1"⟩⟩
        "demo" "Found the result" "info" "sys" 7 "fresh").state.tracker.operations "op1"
      = some ⟨"SEARCH", "sys", 0, "complete", 4, some 7⟩ ∧
    (processLine
        ⟨⟨[], 5⟩, ⟨[("op1", ⟨"SEARCH", "sys", 0, "in_progress", 3, none⟩)],
          some "op1"⟩⟩
        "demo" "Found the result" "info" "sys" 7 "fresh").state.tracker.currentOperationId
      = none ∧
    (processLine
        ⟨⟨[], 5⟩, ⟨[("op1", ⟨"SEARCH", "sys", 0, "in_progress", 3, none⟩)],
          some "op1"⟩⟩
        "demo" "Found the result" "info" "sys" 7 "fresh").entry.operationId
      = none :=
  have h := c9_result_closes_operation_unlabelled
    ⟨⟨[], 5⟩, ⟨[("op1", ⟨"SEARCH", "sys", 0, "in_progress", 3, none⟩)],
      some "op1"⟩⟩
    "demo" "Found the result" "info" "sys" 7 "fresh" "op1"
    ⟨"SEARCH", "sys", 0, "in_progress", 3, none⟩
    (by decide) rfl (by decide)
  ⟨h.1, h.2.1, h.2.2.1⟩

/-- **C10**: a line flagged as a repeated duplicate (its `(message, agent)`
key was last seen strictly within the window) produces no activity record
and no emit, yet the tracker has already been updated by that suppressed
line: an open operation's sequence counter is incremented, and a
SEARCH/ANALYSIS/DECISION line with no open operation has started a fresh
operation whose sequence counter is 1. -/
theorem c10_duplicate_suppressed_but_counted (st : BroadcastState)
    (crewId text level agent : String) (now : Int) (freshId : String)
    (t0 : Int) (c : Nat)
    (hdup : alookup st.dedup.recentLogs (text, agent) = some (t0, c))
    (hwin : now - t0 < st.dedup.timeWindow)
    (hcpos : 1 ≤ c) :
    (processLine st crewId text level agent now freshId).effects = [] ∧
    (∀ opId info, st.tracker.currentOperationId = some opId →
      alookup st.tracker.operations opId = some info →
      ∃ info2,
        alookup (processLine st crewId text level agent now freshId).state.tracker.operations opId
          = some info2 ∧
        info2.sequence = info.sequence + 1) ∧
    (st.tracker.currentOperationId = none → categorizeLog text ∈ SAD →
      ∃ info2,
        alookup (processLine st crewId text level agent now freshId).state.tracker.operations freshId
          = some info2 ∧
        info2.sequence = 1) := by
  have hdd : isDuplicate st.dedup text agent now
      = ((true, c + 1),
         ⟨aset st.dedup.recentLogs (text, agent) (now, c + 1),
          st.dedup.timeWindow⟩) := by
    simp [isDuplicate, hdup, hwin]
  have htr : (processLine st crewId text level agent now freshId).state.tracker
      = (trackCategory st.tracker (categorizeLog text) agent freshId now).1 := rfl
  have heff : (processLine st crewId text level agent now freshId).effects
      = (if (isDuplicate st.dedup text agent now).1.1 = true
            ∧ (isDuplicate st.dedup text agent now).1.2 > 1 then []
         else
           [.recordActivity "crew_log"
              (buildEntry st crewId text level agent now freshId),
            .emit "crew_log"
              (buildEntry st crewId text level agent now freshId)]) := rfl
  refine ⟨?_, ?_, ?_⟩
  · rw [heff, hdd]
    have hgt : c + 1 > 1 := by omega
    simp [hgt]
  · intro opId info hcur hop
    have hupd := updateOperation_found st.tracker opId info hop
    rw [htr]
    by_cases hs : categorizeLog text ∈ SAD
    · refine ⟨⟨info.opType, info.agent, info.startTime, info.status,
        info.sequence + 1, info.endTime⟩, ?_, rfl⟩
      simp only [trackCategory]
      rw [if_pos hs, hcur]
      show alookup ((updateOperation st.tracker opId).1).operations opId = _
      rw [hupd]
      exact alookup_aset_self _ _ _
    · by_cases hr : categorizeLog text = "RESULT"
      · have htc := trackCategory_result_open st.tracker agent freshId now opId
          hcur
        rw [hr, htc]
        have h1 : alookup ((updateOperation st.tracker opId).1).operations opId
            = some ⟨info.opType, info.agent, info.startTime, info.status,
                    info.sequence + 1, info.endTime⟩ := by
          rw [hupd]
          exact alookup_aset_self _ _ _
        have hend := endOperation_found ((updateOperation st.tracker opId).1)
          opId
          ⟨info.opType, info.agent, info.startTime, info.status,
           info.sequence + 1, info.endTime⟩ now h1
        refine ⟨⟨info.opType, info.agent, info.startTime, "complete",
          info.sequence + 1, some now⟩, ?_, rfl⟩
        show alookup (endOperation (updateOperation st.tracker opId).1 opId now).operations opId
          = _
        rw [hend]
        exact alookup_aset_self _ _ _
      · refine ⟨⟨info.opType, info.agent, info.startTime, info.status,
          info.sequence + 1, info.endTime⟩, ?_, rfl⟩
        simp only [trackCategory]
        rw [if_neg hs, if_neg hr, hcur]
        show alookup ((updateOperation st.tracker opId).1).operations opId = _
        rw [hupd]
        exact alookup_aset_self _ _ _
  · intro hcur hs
    rw [htr]
    have h0 : alookup
        (aset st.tracker.operations freshId
          ⟨categorizeLog text, agent, now, "in_progress", 0, none⟩) freshId
        = some ⟨categorizeLog text, agent, now, "in_progress", 0, none⟩ :=
      alookup_aset_self _ _ _
    refine ⟨⟨categorizeLog text, agent, now, "in_progress", 1, none⟩, ?_, rfl⟩
    have hupd2 := updateOperation_found
      ({ operations := aset st.tracker.operations freshId
           ⟨categorizeLog text, agent, now, "in_progress", 0, none⟩,
         currentOperationId := some freshId } : OperationTracker) freshId
      ⟨categorizeLog text, agent, now, "in_progress", 0, none⟩ h0
    simp only [trackCategory]
    rw [if_pos hs, hcur]
    show alookup ((updateOperation
        ({ operations := aset st.tracker.operations freshId
             ⟨categorizeLog text, agent, now, "in_progress", 0, none⟩,
           currentOperationId := some freshId } : OperationTracker)
        freshId).1).operations freshId = _
    rw [hupd2]
    exact alookup_aset_self _ _ _

/-- Witness for C10: an INFO line repeating a message seen 2 seconds ago
while operation `op1` (sequence 3) is open — nothing is emitted or recorded,
but the sequence counter becomes 4. -/
theorem c10_duplicate_suppressed_but_counted_witness :
    (processLine
        ⟨⟨[(("dup msg", "sys"), (0, 1))], 5⟩,
         ⟨[("op1", ⟨"SEARCH", "sys", 0, "in_progress", 3, none⟩)],
          some "op1"⟩⟩
        "demo" "dup msg" "info" "sys" 2 "fresh").effects = [] ∧
    (∃ info2,
      alookup (processLine
          ⟨⟨[(("dup msg", "sys"), (0, 1))], 5⟩,
           ⟨[("op1", ⟨"SEARCH", "sys", 0, "in_progress", 3, none⟩)],
            some "op1"⟩⟩
          "demo" "dup msg" "info" "sys" 2 "fresh").state.tracker.operations "op1"
        = some info2 ∧
      info2.sequence = 3 + 1) :=
  have h := c10_duplicate_suppressed_but_counted
    ⟨⟨[(("dup msg", "sys"), (0, 1))], 5⟩,
     ⟨[("op1", ⟨"SEARCH", "sys", 0, "in_progress", 3, none⟩)], some "op1"⟩⟩
    "demo" "dup msg" "info" "sys" 2 "fresh" 0 1 (by decide) (by decide)
    (by decide)
  ⟨h.1, h.2.1 "op1" ⟨"SEARCH", "sys", 0, "in_progress", 3, none⟩ rfl
    (by decide)⟩

/-! ## Deep-copy isolation (`deepcopy` in `ActivityStore.add_event` /
`get_events`, `backend/activity_store.py`)

Python objects live on a heap and the caller holds references into it; the
pure `ActivityStore` model above cannot express aliasing.  This section
models the heap explicitly: a `Heap` is a list of JSON-like cells, a
payload is an address, container cells hold child addresses, and
`copy.deepcopy` recursively copies the reachable subgraph into fresh cells
(fuel-bounded; acyclic payloads of depth below the fuel copy successfully —
Python's memo-based sharing of already-copied subobjects is not needed for
isolation).  `readTree` is the value a caller observes at an address;
mutation is `List.set`.  Pruning/trimming in `add_event` only drop whole
events and are covered by the pure model; here `addEventH` / `getEventsH`
model the snapshot-on-insert and copy-on-read of the payload data. -/

/-- One heap cell: a JSON-like object whose containers hold addresses. -/
inductive HObj
  | intv (n : Int)
  | strv (s : String)
  | boolv (b : Bool)
  | nullv
  | arr (elems : List Nat)
  | dict (fields : List (String × Nat))
  deriving Repr, DecidableEq

/-- The object heap; an address is an index, allocation appends. -/
abbrev Heap := List HObj

/-- Addresses held directly by a cell. -/
def childAddrs : HObj → List Nat
  | .arr es => es
  | .dict fs => fs.map Prod.snd
  | _ => []

/-- Copy each address in order, threading the heap. -/
def copyStep (copy : Heap → Nat → Option (Heap × Nat)) :
    Heap → List Nat → Option (Heap × List Nat)
  | h, [] => some (h, [])
  | h, a :: as =>
    match copy h a with
    | none => none
    | some (h2, a2) =>
      match copyStep copy h2 as with
      | none => none
      | some (h3, as2) => some (h3, a2 :: as2)

/-- `copy.deepcopy`: recursively copy the subgraph reachable from `a` into
fresh cells at the end of the heap, returning the new heap and the address
of the copy. -/
def deepcopy : Nat → Heap → Nat → Option (Heap × Nat)
  | 0, _, _ => none
  | fuel + 1, h, a =>
    match h[a]? with
    | none => none
    | some (.intv n) => some (h ++ [.intv n], h.length)
    | some (.strv s) => some (h ++ [.strv s], h.length)
    | some (.boolv b) => some (h ++ [.boolv b], h.length)
    | some .nullv => some (h ++ [.nullv], h.length)
    | some (.arr es) =>
      match copyStep (deepcopy fuel) h es with
      | none => none
      | some (h2, es2) => some (h2 ++ [.arr es2], h2.length)
    | some (.dict fs) =>
      match copyStep (deepcopy fuel) h (fs.map Prod.snd) with
      | none => none
      | some (h2, vs2) =>
        some (h2 ++ [.dict (List.zip (fs.map Prod.fst) vs2)], h2.length)

/-- The pure value denoted by a heap object. -/
inductive PTree
  | intv (n : Int)
  | strv (s : String)
  | boolv (b : Bool)
  | nullv
  | arr (elems : List PTree)
  | dict (fields : List (String × PTree))

/-- Read each address in order. -/
def readStep (read : Heap → Nat → Option PTree) :
    Heap → List Nat → Option (List PTree)
  | _, [] => some []
  | h, a :: as =>
    match read h a with
    | none => none
    | some t =>
      match readStep read h as with
      | none => none
      | some ts => some (t :: ts)

/-- The value tree a caller observes at an address (fuel-bounded). -/
def readTree : Nat → Heap → Nat → Option PTree
  | 0, _, _ => none
  | fuel + 1, h, a =>
    match h[a]? with
    | none => none
    | some (.intv n) => some (.intv n)
    | some (.strv s) => some (.strv s)
    | some (.boolv b) => some (.boolv b)
    | some .nullv => some .nullv
    | some (.arr es) =>
      match readStep (readTree fuel) h es with
      | none => none
      | some ts => some (.arr ts)
    | some (.dict fs) =>
      match readStep (readTree fuel) h (fs.map Prod.snd) with
      | none => none
      | some ts => some (.dict (List.zip (fs.map Prod.fst) ts))

/-- All cells with address in `[lo, hi)` only point into `[lo, hi)`. -/
def regionClosed (lo hi : Nat) (h : Heap) : Prop :=
  ∀ i ∈ List.range hi, lo ≤ i →
    ∀ c ∈ childAddrs (h.getD i HObj.nullv), lo ≤ c ∧ c < hi

/-- Every cell only points at existing cells. -/
def heapClosed (h : Heap) : Prop := regionClosed 0 h.length h

instance (lo hi : Nat) (h : Heap) : Decidable (regionClosed lo hi h) :=
  inferInstanceAs (Decidable (∀ i ∈ List.range hi, lo ≤ i →
    ∀ c ∈ childAddrs (h.getD i HObj.nullv), lo ≤ c ∧ c < hi))

instance (h : Heap) : Decidable (heapClosed h) :=
  inferInstanceAs (Decidable (regionClosed 0 h.length h))

theorem getD_eq_of_mem (h : Heap) (i : Nat) (o : HObj) (ho : h[i]? = some o) :
    h.getD i HObj.nullv = o := by
  rw [List.getD_eq_getElem?_getD, ho]
  rfl

theorem regionClosed_get (lo hi : Nat) (h : Heap) (hr : regionClosed lo hi h)
    (i : Nat) (hlo : lo ≤ i) (hhi : i < hi) (o : HObj) (ho : h[i]? = some o) :
    ∀ c ∈ childAddrs o, lo ≤ c ∧ c < hi := by
  intro c hc
  refine hr i (List.mem_range.mpr hhi) hlo c ?_
  rw [getD_eq_of_mem h i o ho]
  exact hc

theorem regionClosed_intro (lo hi : Nat) (h : Heap)
    (hr : ∀ i, lo ≤ i → i < hi → ∀ o, h[i]? = some o →
      ∀ c ∈ childAddrs o, lo ≤ c ∧ c < hi) :
    regionClosed lo hi h := by
  intro i hir hlo c hc
  have hih : i < hi := List.mem_range.mp hir
  cases ho : h[i]? with
  | some o =>
    rw [getD_eq_of_mem h i o ho] at hc
    exact hr i hlo hih o ho c hc
  | none =>
    rw [List.getD_eq_getElem?_getD, ho] at hc
    simp [childAddrs] at hc

theorem regionClosed_of_le (lo hi : Nat) (h : Heap) (hle : hi ≤ lo) :
    regionClosed lo hi h := by
  refine regionClosed_intro lo hi h ?_
  intro i hlo hih o _ c _
  omega

theorem regionClosed_append (lo hi : Nat) (h ext : Heap)
    (hr : regionClosed lo hi h) (hhi : hi ≤ h.length) :
    regionClosed lo hi (h ++ ext) := by
  refine regionClosed_intro lo hi (h ++ ext) ?_
  intro i hlo hih o ho c hc
  rw [List.getElem?_append_left (lt_of_lt_of_le hih hhi)] at ho
  exact regionClosed_get lo hi h hr i hlo hih o ho c hc

theorem regionClosed_union (lo mid hi : Nat) (h : Heap)
    (h1 : regionClosed lo mid h) (h2 : regionClosed mid hi h)
    (hlm : lo ≤ mid) (hmh : mid ≤ hi) :
    regionClosed lo hi h := by
  refine regionClosed_intro lo hi h ?_
  intro i hlo hih o ho c hc
  by_cases him : i < mid
  · have := regionClosed_get lo mid h h1 i hlo him o ho c hc
    exact ⟨this.1, lt_of_lt_of_le this.2 hmh⟩
  · have := regionClosed_get mid hi h h2 i (by omega) hih o ho c hc
    exact ⟨le_trans hlm this.1, this.2⟩

theorem regionClosed_push (lo : Nat) (h : Heap) (o : HObj)
    (hlo : lo ≤ h.length)
    (hr : regionClosed lo h.length h)
    (hc : ∀ c ∈ childAddrs o, lo ≤ c ∧ c < h.length + 1) :
    regionClosed lo (h ++ [o]).length (h ++ [o]) := by
  have hlen : (h ++ [o]).length = h.length + 1 := by simp
  refine regionClosed_intro _ _ _ ?_
  intro i hloi hih o2 ho2 c hc2
  rw [hlen] at hih
  by_cases him : i < h.length
  · rw [List.getElem?_append_left him] at ho2
    have := regionClosed_get lo h.length h hr i hloi him o2 ho2 c hc2
    rw [hlen]
    exact ⟨this.1, by omega⟩
  · have hieq : i = h.length := by omega
    subst hieq
    rw [List.getElem?_concat_length] at ho2
    injection ho2 with ho3
    subst ho3
    rw [hlen]
    exact hc c hc2

theorem heapClosed_extend (h ext : Heap) (hc : heapClosed h)
    (hr : regionClosed h.length (h ++ ext).length (h ++ ext)) :
    heapClosed (h ++ ext) := by
  unfold heapClosed at hc ⊢
  have h1 : regionClosed 0 h.length (h ++ ext) :=
    regionClosed_append 0 h.length h ext hc (le_refl _)
  exact regionClosed_union 0 h.length (h ++ ext).length (h ++ ext) h1 hr
    (Nat.zero_le _) (by simp)

/-- The contract of one successful copy: the heap is only extended, the new
address is fresh, and the appended region is self-contained. -/
def CopySpec (copy : Heap → Nat → Option (Heap × Nat)) : Prop :=
  ∀ h a h2 a2, copy h a = some (h2, a2) →
    (∃ ext, h2 = h ++ ext) ∧ h.length ≤ a2 ∧ a2 < h2.length ∧
    regionClosed h.length h2.length h2

theorem copyStep_spec (copy : Heap → Nat → Option (Heap × Nat))
    (hc : CopySpec copy) :
    ∀ (as : List Nat) (h h2 : Heap) (as2 : List Nat),
      copyStep copy h as = some (h2, as2) →
      (∃ ext, h2 = h ++ ext) ∧ as2.length = as.length ∧
      (∀ a2 ∈ as2, h.length ≤ a2 ∧ a2 < h2.length) ∧
      regionClosed h.length h2.length h2 := by
  intro as
  induction as with
  | nil =>
    intro h h2 as2 hstep
    simp only [copyStep, Option.some.injEq, Prod.mk.injEq] at hstep
    obtain ⟨rfl, rfl⟩ := hstep
    exact ⟨⟨[], by simp⟩, rfl, by simp, regionClosed_of_le _ _ _ (le_refl _)⟩
  | cons a as ih =>
    intro h h2 as2 hstep
    simp only [copyStep] at hstep
    cases h1 : copy h a with
    | none => simp [h1] at hstep
    | some p =>
      obtain ⟨hA, a2⟩ := p
      simp only [h1] at hstep
      cases h2s : copyStep copy hA as with
      | none => simp [h2s] at hstep
      | some q =>
        obtain ⟨hB, asB⟩ := q
        simp only [h2s, Option.some.injEq, Prod.mk.injEq] at hstep
        obtain ⟨rfl, rfl⟩ := hstep
        obtain ⟨⟨ext1, hext1⟩, ha2lo, ha2hi, hreg1⟩ := hc h a hA a2 h1
        obtain ⟨⟨ext2, hext2⟩, hlen2, hmem2, hreg2⟩ := ih hA hB asB h2s
        have hlenA : h.length ≤ hA.length := by rw [hext1]; simp
        have hlenB : hA.length ≤ hB.length := by rw [hext2]; simp
        refine ⟨⟨ext1 ++ ext2, by rw [hext2, hext1, List.append_assoc]⟩,
          by simp [hlen2], ?_, ?_⟩
        · intro x hx
          rcases List.mem_cons.mp hx with rfl | hx2
          · exact ⟨ha2lo, by omega⟩
          · have := hmem2 x hx2
            exact ⟨le_trans hlenA this.1, this.2⟩
        · have hreg1B : regionClosed h.length hA.length hB := by
            rw [hext2]
            exact regionClosed_append _ _ _ _ hreg1 (le_refl _)
          exact regionClosed_union h.length hA.length hB.length hB hreg1B hreg2
            hlenA hlenB

theorem deepcopy_spec : ∀ fuel, CopySpec (deepcopy fuel) := by
  intro fuel
  induction fuel with
  | zero =>
    intro h a h2 a2 hstep
    simp [deepcopy] at hstep
  | succ fuel ih =>
    intro h a h2 a2 hstep
    simp only [deepcopy] at hstep
    cases ho : h[a]? with
    | none => simp [ho] at hstep
    | some o =>
      cases o with
      | intv n =>
        simp only [ho, Option.some.injEq, Prod.mk.injEq] at hstep
        obtain ⟨rfl, rfl⟩ := hstep
        refine ⟨⟨[.intv n], rfl⟩, le_refl _, by simp, ?_⟩
        refine regionClosed_push _ _ _ (le_refl _)
          (regionClosed_of_le _ _ _ (le_refl _)) ?_
        intro c hc
        simp [childAddrs] at hc
      | strv s2 =>
        simp only [ho, Option.some.injEq, Prod.mk.injEq] at hstep
        obtain ⟨rfl, rfl⟩ := hstep
        refine ⟨⟨[.strv s2], rfl⟩, le_refl _, by simp, ?_⟩
        refine regionClosed_push _ _ _ (le_refl _)
          (regionClosed_of_le _ _ _ (le_refl _)) ?_
        intro c hc
        simp [childAddrs] at hc
      | boolv b =>
        simp only [ho, Option.some.injEq, Prod.mk.injEq] at hstep
        obtain ⟨rfl, rfl⟩ := hstep
        refine ⟨⟨[.boolv b], rfl⟩, le_refl _, by simp, ?_⟩
        refine regionClosed_push _ _ _ (le_refl _)
          (regionClosed_of_le _ _ _ (le_refl _)) ?_
        intro c hc
        simp [childAddrs] at hc
      | nullv =>
        simp only [ho, Option.some.injEq, Prod.mk.injEq] at hstep
        obtain ⟨rfl, rfl⟩ := hstep
        refine ⟨⟨[.nullv], rfl⟩, le_refl _, by simp, ?_⟩
        refine regionClosed_push _ _ _ (le_refl _)
          (regionClosed_of_le _ _ _ (le_refl _)) ?_
        intro c hc
        simp [childAddrs] at hc
      | arr es =>
        simp only [ho] at hstep
        cases hcs : copyStep (deepcopy fuel) h es with
        | none => simp [hcs] at hstep
        | some q =>
          obtain ⟨hB, es2⟩ := q
          simp only [hcs, Option.some.injEq, Prod.mk.injEq] at hstep
          obtain ⟨rfl, rfl⟩ := hstep
          obtain ⟨⟨ext1, hext1⟩, hlen2, hmem2, hreg⟩ :=
            copyStep_spec (deepcopy fuel) ih es h hB es2 hcs
          have hlenB : h.length ≤ hB.length := by rw [hext1]; simp
          refine ⟨⟨ext1 ++ [.arr es2], by rw [hext1, List.append_assoc]⟩,
            hlenB, by simp, ?_⟩
          refine regionClosed_push _ _ _ hlenB hreg ?_
          intro c hc
          have := hmem2 c (by simpa [childAddrs] using hc)
          exact ⟨this.1, by omega⟩
      | dict fs =>
        simp only [ho] at hstep
        cases hcs : copyStep (deepcopy fuel) h (fs.map Prod.snd) with
        | none => simp [hcs] at hstep
        | some q =>
          obtain ⟨hB, vs2⟩ := q
          simp only [hcs, Option.some.injEq, Prod.mk.injEq] at hstep
          obtain ⟨rfl, rfl⟩ := hstep
          obtain ⟨⟨ext1, hext1⟩, hlen2, hmem2, hreg⟩ :=
            copyStep_spec (deepcopy fuel) ih (fs.map Prod.snd) h hB vs2 hcs
          have hlenB : h.length ≤ hB.length := by rw [hext1]; simp
          have hsnd : (List.zip (fs.map Prod.fst) vs2).map Prod.snd = vs2 := by
            refine List.map_snd_zip _ _ ?_
            rw [hlen2]
            simp
          refine ⟨⟨ext1 ++ [.dict (List.zip (fs.map Prod.fst) vs2)],
            by rw [hext1, List.append_assoc]⟩, hlenB, by simp, ?_⟩
          refine regionClosed_push _ _ _ hlenB hreg ?_
          intro c hc
          have hc2 : c ∈ vs2 := by
            rw [← hsnd]
            simpa [childAddrs] using hc
          have := hmem2 c hc2
          exact ⟨this.1, by omega⟩

theorem deepcopy_heapClosed (fuel : Nat) (h : Heap) (a : Nat) (h2 : Heap)
    (a2 : Nat) (hc : heapClosed h) (hd : deepcopy fuel h a = some (h2, a2)) :
    heapClosed h2 := by
  obtain ⟨⟨ext, rfl⟩, _, _, hreg⟩ := deepcopy_spec fuel h a h2 a2 hd
  exact heapClosed_extend h ext hc hreg

theorem copyStep_heapClosed (copy : Heap → Nat → Option (Heap × Nat))
    (hcs : CopySpec copy) (as : List Nat) (h h2 : Heap) (as2 : List Nat)
    (hc : heapClosed h) (hstep : copyStep copy h as = some (h2, as2)) :
    heapClosed h2 := by
  obtain ⟨⟨ext, rfl⟩, _, _, hreg⟩ := copyStep_spec copy hcs as h h2 as2 hstep
  exact heapClosed_extend h ext hc hreg

theorem readStep_congr (read1 read2 : Heap → Nat → Option PTree)
    (h1 h2 : Heap) :
    ∀ (as : List Nat), (∀ a ∈ as, read2 h2 a = read1 h1 a) →
      readStep read2 h2 as = readStep read1 h1 as := by
  intro as
  induction as with
  | nil => intro _; rfl
  | cons a as ih =>
    intro hp
    simp only [readStep]
    rw [hp a (List.mem_cons_self a as),
      ih (fun x hx => hp x (List.mem_cons_of_mem _ hx))]

theorem readTree_congr : ∀ (g : Nat) (lo hi : Nat) (h1 h2 : Heap),
    regionClosed lo hi h1 →
    (∀ i, lo ≤ i → i < hi → h2[i]? = h1[i]?) →
    ∀ a, lo ≤ a → a < hi → readTree g h2 a = readTree g h1 a := by
  intro g
  induction g with
  | zero => intro lo hi h1 h2 _ _ a _ _; rfl
  | succ g ih =>
    intro lo hi h1 h2 hr hag a ha1 ha2
    simp only [readTree]
    rw [hag a ha1 ha2]
    cases ho : h1[a]? with
    | none => rfl
    | some o =>
      cases o with
      | intv n => rfl
      | strv s2 => rfl
      | boolv b => rfl
      | nullv => rfl
      | arr es =>
        have hch := regionClosed_get lo hi h1 hr a ha1 ha2 _ ho
        have heq := readStep_congr (readTree g) (readTree g) h1 h2 es
          (fun c hc => ih lo hi h1 h2 hr hag c
            (hch c (by simpa [childAddrs] using hc)).1
            (hch c (by simpa [childAddrs] using hc)).2)
        show (match readStep (readTree g) h2 es with
            | none => none
            | some ts => some (PTree.arr ts))
          = (match readStep (readTree g) h1 es with
            | none => none
            | some ts => some (PTree.arr ts))
        rw [heq]
      | dict fs =>
        have hch := regionClosed_get lo hi h1 hr a ha1 ha2 _ ho
        have heq := readStep_congr (readTree g) (readTree g) h1 h2
          (fs.map Prod.snd)
          (fun c hc => ih lo hi h1 h2 hr hag c
            (hch c (by simpa [childAddrs] using hc)).1
            (hch c (by simpa [childAddrs] using hc)).2)
        show (match readStep (readTree g) h2 (fs.map Prod.snd) with
            | none => none
            | some ts => some (PTree.dict (List.zip (fs.map Prod.fst) ts)))
          = (match readStep (readTree g) h1 (fs.map Prod.snd) with
            | none => none
            | some ts => some (PTree.dict (List.zip (fs.map Prod.fst) ts)))
        rw [heq]

theorem readTree_set_outside (g lo hi : Nat) (h : Heap) (a b : Nat) (v : HObj)
    (hr : regionClosed lo hi h) (ha1 : lo ≤ a) (ha2 : a < hi)
    (hb : b < lo ∨ hi ≤ b) :
    readTree g (h.set b v) a = readTree g h a := by
  refine readTree_congr g lo hi h (h.set b v) hr ?_ a ha1 ha2
  intro i hi1 hi2
  exact List.getElem?_set_ne (by omega)

theorem readTree_append (g lo hi : Nat) (h ext : Heap)
    (hr : regionClosed lo hi h) (hhi : hi ≤ h.length) (a : Nat)
    (ha1 : lo ≤ a) (ha2 : a < hi) :
    readTree g (h ++ ext) a = readTree g h a := by
  refine readTree_congr g lo hi h (h ++ ext) hr ?_ a ha1 ha2
  intro i hi1 hi2
  exact List.getElem?_append_left (by omega)

theorem readStep_append (g lo hi : Nat) (h ext : Heap)
    (hr : regionClosed lo hi h) (hhi : hi ≤ h.length) (as : List Nat)
    (has : ∀ a ∈ as, lo ≤ a ∧ a < hi) :
    readStep (readTree g) (h ++ ext) as = readStep (readTree g) h as := by
  refine readStep_congr (readTree g) (readTree g) h (h ++ ext) as ?_
  intro a ha
  exact readTree_append g lo hi h ext hr hhi a (has a ha).1 (has a ha).2

theorem copyStep_reads (copy : Heap → Nat → Option (Heap × Nat))
    (hspec : CopySpec copy)
    (hclp : ∀ h a h2 a2, heapClosed h → copy h a = some (h2, a2) →
      heapClosed h2)
    (hreads : ∀ h a h2 a2, heapClosed h → copy h a = some (h2, a2) →
      ∀ g, readTree g h2 a2 = readTree g h a) :
    ∀ (as : List Nat) (h h2 : Heap) (as2 : List Nat), heapClosed h →
      (∀ a ∈ as, a < h.length) →
      copyStep copy h as = some (h2, as2) →
      ∀ g, readStep (readTree g) h2 as2 = readStep (readTree g) h as := by
  intro as
  induction as with
  | nil =>
    intro h h2 as2 _ _ hstep g
    simp only [copyStep, Option.some.injEq, Prod.mk.injEq] at hstep
    obtain ⟨rfl, rfl⟩ := hstep
    rfl
  | cons a as ih =>
    intro h h2 as2 hc hbound hstep g
    simp only [copyStep] at hstep
    cases h1 : copy h a with
    | none => simp [h1] at hstep
    | some p =>
      obtain ⟨hA, a2⟩ := p
      simp only [h1] at hstep
      cases h2s : copyStep copy hA as with
      | none => simp [h2s] at hstep
      | some q =>
        obtain ⟨hB, asB⟩ := q
        simp only [h2s, Option.some.injEq, Prod.mk.injEq] at hstep
        obtain ⟨rfl, rfl⟩ := hstep
        obtain ⟨⟨ext1, hext1⟩, ha2lo, ha2hi, hreg1⟩ := hspec h a hA a2 h1
        obtain ⟨⟨ext2, hext2⟩, _, _, _⟩ := copyStep_spec copy hspec as hA hB
          asB h2s
        have hcA : heapClosed hA := hclp h a hA a2 hc h1
        have hlenA : h.length ≤ hA.length := by rw [hext1]; simp
        have e1 : readTree g hB a2 = readTree g hA a2 := by
          rw [hext2]
          exact readTree_append g h.length hA.length hA ext2 hreg1
            (le_refl _) a2 ha2lo ha2hi
        have e2 : readTree g hA a2 = readTree g h a := hreads h a hA a2 hc h1 g
        have e3 : readStep (readTree g) hB asB = readStep (readTree g) hA as :=
          ih hA hB asB hcA
            (fun x hx => lt_of_lt_of_le (hbound x (List.mem_cons_of_mem _ hx))
              hlenA) h2s g
        have e4 : readStep (readTree g) hA as = readStep (readTree g) h as := by
          rw [hext1]
          exact readStep_append g 0 h.length h ext1 hc (le_refl _) as
            (fun x hx => ⟨Nat.zero_le _, hbound x (List.mem_cons_of_mem _ hx)⟩)
        show (match readTree g hB a2 with
            | none => none
            | some t =>
              match readStep (readTree g) hB asB with
              | none => none
              | some ts => some (t :: ts))
          = (match readTree g h a with
            | none => none
            | some t =>
              match readStep (readTree g) h as with
              | none => none
              | some ts => some (t :: ts))
        rw [e1, e2, e3, e4]

theorem deepcopy_reads : ∀ (fuel : Nat) (h : Heap) (a : Nat) (h2 : Heap)
    (a2 : Nat), heapClosed h → deepcopy fuel h a = some (h2, a2) →
    ∀ g, readTree g h2 a2 = readTree g h a := by
  intro fuel
  induction fuel with
  | zero =>
    intro h a h2 a2 _ hd
    simp [deepcopy] at hd
  | succ fuel ih =>
    intro h a h2 a2 hc hd
    simp only [deepcopy] at hd
    cases ho : h[a]? with
    | none => simp [ho] at hd
    | some o =>
      have halen : a < h.length := by
        by_contra hcon
        rw [List.getElem?_eq_none (by omega)] at ho
        exact Option.noConfusion ho
      cases o with
      | intv n =>
        simp only [ho, Option.some.injEq, Prod.mk.injEq] at hd
        obtain ⟨rfl, rfl⟩ := hd
        intro g
        cases g with
        | zero => rfl
        | succ g =>
          simp only [readTree]
          rw [List.getElem?_concat_length, ho]
      | strv s2 =>
        simp only [ho, Option.some.injEq, Prod.mk.injEq] at hd
        obtain ⟨rfl, rfl⟩ := hd
        intro g
        cases g with
        | zero => rfl
        | succ g =>
          simp only [readTree]
          rw [List.getElem?_concat_length, ho]
      | boolv b =>
        simp only [ho, Option.some.injEq, Prod.mk.injEq] at hd
        obtain ⟨rfl, rfl⟩ := hd
        intro g
        cases g with
        | zero => rfl
        | succ g =>
          simp only [readTree]
          rw [List.getElem?_concat_length, ho]
      | nullv =>
        simp only [ho, Option.some.injEq, Prod.mk.injEq] at hd
        obtain ⟨rfl, rfl⟩ := hd
        intro g
        cases g with
        | zero => rfl
        | succ g =>
          simp only [readTree]
          rw [List.getElem?_concat_length, ho]
      | arr es =>
        simp only [ho] at hd
        cases hcs : copyStep (deepcopy fuel) h es with
        | none => simp [hcs] at hd
        | some q =>
          obtain ⟨hB, es2⟩ := q
          simp only [hcs, Option.some.injEq, Prod.mk.injEq] at hd
          obtain ⟨rfl, rfl⟩ := hd
          obtain ⟨⟨ext1, hext1⟩, hlen2, hmem2, hreg⟩ :=
            copyStep_spec (deepcopy fuel) (deepcopy_spec fuel) es h hB es2 hcs
          have hbound : ∀ c ∈ es, c < h.length := by
            intro c hcmem
            exact (regionClosed_get 0 h.length h hc a (Nat.zero_le _) halen _
              ho c (by simpa [childAddrs] using hcmem)).2
          intro g
          cases g with
          | zero => rfl
          | succ g =>
            simp only [readTree]
            rw [List.getElem?_concat_length, ho]
            have e1 : readStep (readTree g) (hB ++ [.arr es2]) es2
                = readStep (readTree g) hB es2 :=
              readStep_append g h.length hB.length hB [.arr es2] hreg
                (le_refl _) es2 hmem2
            have e2 : readStep (readTree g) hB es2
                = readStep (readTree g) h es :=
              copyStep_reads (deepcopy fuel) (deepcopy_spec fuel)
                (fun h3 a3 h4 a4 hc3 hd3 =>
                  deepcopy_heapClosed fuel h3 a3 h4 a4 hc3 hd3)
                ih es h hB es2 hc hbound hcs g
            show (match readStep (readTree g) (hB ++ [HObj.arr es2]) es2 with
                | none => none
                | some ts => some (PTree.arr ts))
              = (match readStep (readTree g) h es with
                | none => none
                | some ts => some (PTree.arr ts))
            rw [e1, e2]
      | dict fs =>
        simp only [ho] at hd
        cases hcs : copyStep (deepcopy fuel) h (fs.map Prod.snd) with
        | none => simp [hcs] at hd
        | some q =>
          obtain ⟨hB, vs2⟩ := q
          simp only [hcs, Option.some.injEq, Prod.mk.injEq] at hd
          obtain ⟨rfl, rfl⟩ := hd
          obtain ⟨⟨ext1, hext1⟩, hlen2, hmem2, hreg⟩ :=
            copyStep_spec (deepcopy fuel) (deepcopy_spec fuel)
              (fs.map Prod.snd) h hB vs2 hcs
          have hbound : ∀ c ∈ fs.map Prod.snd, c < h.length := by
            intro c hcmem
            exact (regionClosed_get 0 h.length h hc a (Nat.zero_le _) halen _
              ho c (by simpa [childAddrs] using hcmem)).2
          have hsnd : (List.zip (fs.map Prod.fst) vs2).map Prod.snd = vs2 := by
            refine List.map_snd_zip _ _ ?_
            rw [hlen2]
            simp
          have hfst : (List.zip (fs.map Prod.fst) vs2).map Prod.fst
              = fs.map Prod.fst := by
            refine List.map_fst_zip _ _ ?_
            rw [hlen2]
            simp
          intro g
          cases g with
          | zero => rfl
          | succ g =>
            simp only [readTree]
            rw [List.getElem?_concat_length, ho]
            have e1 : readStep (readTree g)
                (hB ++ [.dict (List.zip (fs.map Prod.fst) vs2)]) vs2
                = readStep (readTree g) hB vs2 :=
              readStep_append g h.length hB.length hB _ hreg (le_refl _) vs2
                hmem2
            have e2 : readStep (readTree g) hB vs2
                = readStep (readTree g) h (fs.map Prod.snd) :=
              copyStep_reads (deepcopy fuel) (deepcopy_spec fuel)
                (fun h3 a3 h4 a4 hc3 hd3 =>
                  deepcopy_heapClosed fuel h3 a3 h4 a4 hc3 hd3)
                ih (fs.map Prod.snd) h hB vs2 hc hbound hcs g
            show (match readStep (readTree g)
                  (hB ++ [HObj.dict (List.zip (fs.map Prod.fst) vs2)])
                  ((List.zip (fs.map Prod.fst) vs2).map Prod.snd) with
                | none => none
                | some ts => some (PTree.dict
                    (List.zip ((List.zip (fs.map Prod.fst) vs2).map Prod.fst)
                      ts)))
              = (match readStep (readTree g) h (fs.map Prod.snd) with
                | none => none
                | some ts => some (PTree.dict
                    (List.zip (fs.map Prod.fst) ts)))
            rw [hsnd, hfst, e1, e2]

/-- One stored event in the heap view: scalar fields plus the address of the
deep-copied payload snapshot. -/
structure HEvent where
  id : Nat
  type : String
  timestamp : Int
  data : Nat
  deriving Repr, DecidableEq

/-- The heap view of the store's buffer. -/
structure HStore where
  events : List HEvent
  nextId : Nat
  deriving Repr, DecidableEq

/-- `add_event`, heap view:
`snapshot = deepcopy(payload) if isinstance(payload, dict) else payload` —
only a dict payload is deep-copied; any other payload is stored aliased,
its original address kept as-is.  Then the entry holding the snapshot's
address is appended.  (Retention/capacity trimming only remove whole events
and are covered by the pure `ActivityStore` model.) -/
def addEventH (fuel : Nat) (h : Heap) (s : HStore) (etype : String)
    (payloadAddr : Nat) (now : Int) : Option (Heap × HStore × HEvent) :=
  match h[payloadAddr]? with
  | some (.dict _) =>
    match deepcopy fuel h payloadAddr with
    | none => none
    | some (h2, snap) =>
      some (h2,
        ⟨s.events ++ [⟨s.nextId, etype, now, snap⟩], s.nextId + 1⟩,
        ⟨s.nextId, etype, now, snap⟩)
  | _ =>
    some (h,
      ⟨s.events ++ [⟨s.nextId, etype, now, payloadAddr⟩], s.nextId + 1⟩,
      ⟨s.nextId, etype, now, payloadAddr⟩)

/-- `get_events`, heap view: return a deep copy of each stored payload. -/
def getEventsH (fuel : Nat) (h : Heap) (s : HStore) :
    Option (Heap × List Nat) :=
  copyStep (deepcopy fuel) h (s.events.map HEvent.data)

/-- **C7, counterexample**: `add_event` only deep-copies dict payloads
(`isinstance(payload, dict)`), so a list payload `[1]` is stored aliased:
the recorded event's data address is the caller's own list cell.  Mutating
the caller-held list afterwards (`lst[0] = 99`, here setting the element
cell) changes the data a subsequent `get_events` returns — `[1]` before the
mutation, `[99]` after — refuting isolation for every payload. -/
theorem c7_aliased_list_counterexample :
    addEventH 3 [.intv 1, .arr [0]] ⟨[], 1⟩ "crew_log" 1 0
      = some ([.intv 1, .arr [0]],
              ⟨[⟨1, "crew_log", 0, 1⟩], 2⟩, ⟨1, "crew_log", 0, 1⟩) ∧
    getEventsH 3 [.intv 1, .arr [0]] ⟨[⟨1, "crew_log", 0, 1⟩], 2⟩
      = some ([.intv 1, .arr [0], .intv 1, .arr [2]], [3]) ∧
    getEventsH 3 (([.intv 1, .arr [0]] : Heap).set 0 (.intv 99))
        ⟨[⟨1, "crew_log", 0, 1⟩], 2⟩
      = some ([.intv 99, .arr [0], .intv 99, .arr [2]], [3]) ∧
    readTree 3 [.intv 1, .arr [0], .intv 1, .arr [2]] 3
      = some (.arr [.intv 1]) ∧
    readTree 3 [.intv 99, .arr [0], .intv 99, .arr [2]] 3
      = some (.arr [.intv 99]) ∧
    PTree.arr [.intv 1] ≠ PTree.arr [.intv 99] := by
  refine ⟨by decide, by decide, by decide, rfl, rfl, ?_⟩
  intro hcontra
  injection hcontra with h1
  injection h1 with h2 _
  injection h2 with h3
  exact absurd h3 (by decide)

/-- **C7, amended**: deep-copy isolation of `add_event` / `get_events` for
dict payloads (the only ones `add_event` snapshots:
`deepcopy(payload) if isinstance(payload, dict) else payload`; a non-dict
payload such as a list is stored aliased, and mutating it does change
subsequently returned data).  On a closed heap, after `add_event` snapshots
a dict payload: (a) mutating any cell the caller could hold (any pre-call
address) never changes the value tree of the stored snapshot; (b) the
snapshot denotes exactly the payload's value tree at insertion; and (c) for
any subsequent `get_events`, the returned copies denote the stored
snapshots' trees, and mutating any cell of the returned copies (all fresh
addresses) never changes the stored snapshot's tree — so caller-side
mutation after recording or after reading never changes the data
subsequently returned by `get_events`. -/
theorem c7_deepcopy_isolation (fuel : Nat) (h : Heap) (s : HStore)
    (etype : String) (payloadAddr : Nat) (now : Int)
    (h2 : Heap) (s2 : HStore) (ev : HEvent)
    (fs : List (String × Nat))
    (hdict : h[payloadAddr]? = some (.dict fs))
    (hclosed : heapClosed h)
    (hstore : ∀ e ∈ s.events, e.data < h.length)
    (hadd : addEventH fuel h s etype payloadAddr now = some (h2, s2, ev)) :
    (∀ (b : Nat) (v : HObj) (g : Nat), b < h.length →
      readTree g (h2.set b v) ev.data = readTree g h2 ev.data) ∧
    (∀ g, readTree g h2 ev.data = readTree g h payloadAddr) ∧
    (∀ (fuel2 : Nat) (h3 : Heap) (addrs : List Nat),
      getEventsH fuel2 h2 s2 = some (h3, addrs) →
      (∀ g, readStep (readTree g) h3 addrs
          = readStep (readTree g) h2 (s2.events.map HEvent.data)) ∧
      (∀ (b : Nat) (v : HObj) (g : Nat), h2.length ≤ b →
        readTree g (h3.set b v) ev.data = readTree g h3 ev.data)) := by
  simp only [addEventH, hdict] at hadd
  cases hd : deepcopy fuel h payloadAddr with
  | none => simp [hd] at hadd
  | some p =>
    obtain ⟨hC, snap⟩ := p
    simp only [hd, Option.some.injEq, Prod.mk.injEq] at hadd
    obtain ⟨rfl, rfl, rfl⟩ := hadd
    obtain ⟨⟨ext1, hext1⟩, hsnaplo, hsnaphi, hreg⟩ :=
      deepcopy_spec fuel h payloadAddr hC snap hd
    have hcC : heapClosed hC :=
      deepcopy_heapClosed fuel h payloadAddr hC snap hclosed hd
    have hlenC : h.length ≤ hC.length := by rw [hext1]; simp
    refine ⟨?_, ?_, ?_⟩
    · intro b v g hb
      exact readTree_set_outside g h.length hC.length hC snap b v hreg
        hsnaplo hsnaphi (Or.inl hb)
    · intro g
      exact deepcopy_reads fuel h payloadAddr hC snap hclosed hd g
    · intro fuel2 h3 addrs hget
      simp only [getEventsH] at hget
      obtain ⟨⟨ext2, hext2⟩, _, _, _⟩ :=
        copyStep_spec (deepcopy fuel2) (deepcopy_spec fuel2) _ hC h3 addrs hget
      have hbound : ∀ d ∈ (⟨s.events ++ [⟨s.nextId, etype, now, snap⟩],
          s.nextId + 1⟩ : HStore).events.map HEvent.data, d < hC.length := by
        intro d hdm
        simp only [List.map_append, List.mem_append] at hdm
        rcases hdm with hdm | hdm
        · obtain ⟨e, he, rfl⟩ := List.mem_map.mp hdm
          exact lt_of_lt_of_le (hstore e he) hlenC
        · simp at hdm
          omega
      constructor
      · intro g
        exact copyStep_reads (deepcopy fuel2) (deepcopy_spec fuel2)
          (fun h4 a4 h5 a5 hc4 hd4 =>
            deepcopy_heapClosed fuel2 h4 a4 h5 a5 hc4 hd4)
          (fun h4 a4 h5 a5 hc4 hd4 =>
            deepcopy_reads fuel2 h4 a4 h5 a5 hc4 hd4)
          _ hC h3 addrs hcC hbound hget g
      · intro b v g hb
        have hregC : regionClosed h.length hC.length h3 := by
          rw [hext2]
          exact regionClosed_append _ _ _ _ hreg (le_refl _)
        exact readTree_set_outside g h.length hC.length h3 snap b v hregC
          hsnaplo hsnaphi (Or.inr hb)

/-- Witness for C7: payload `{"x": 5}` at address 1 on a two-cell heap;
mutating the original cell 0 to 99 after recording does not change the
stored snapshot's tree, and the snapshot denotes the original payload. -/
theorem c7_deepcopy_isolation_witness :
    readTree 3 (([.intv 5, .dict [("x", 0)], .intv 5, .dict [("x", 2)]]
        : Heap).set 0 (.intv 99)) 3
      = readTree 3
        ([.intv 5, .dict [("x", 0)], .intv 5, .dict [("x", 2)]] : Heap) 3 ∧
    (∀ g, readTree g
        ([.intv 5, .dict [("x", 0)], .intv 5, .dict [("x", 2)]] : Heap) 3
      = readTree g ([.intv 5, .dict [("x", 0)]] : Heap) 1) :=
  have h := c7_deepcopy_isolation 3 [.intv 5, .dict [("x", 0)]] ⟨[], 1⟩
    "crew_log" 1 0
    [.intv 5, .dict [("x", 0)], .intv 5, .dict [("x", 2)]]
    ⟨[⟨1, "crew_log", 0, 3⟩], 2⟩ ⟨1, "crew_log", 0, 3⟩
    [("x", 0)] (by decide) (by decide) (by decide) (by decide)
  ⟨h.1 0 (.intv 99) 3 (by decide), h.2.1⟩

end CrewAI
